import Mathlib

/-!
# Verification of CMImportBiF (builtin-function import and lowering pass)

This file gives a shallow embedding of the pass implemented in
`src/llvm/tools/clang/lib/CodeGen/CMImportBiF.cpp` and proves, or refutes,
the frozen claims about it.

Modelling conventions:
* LLVM values are represented syntactically.  An instruction result is
  `Value.instrRes vid ty` where `vid` is the SSA identity of the producing
  instruction; `replaceAllUsesWith` is substitution on these identities.
* A function body is the flat, in-order list of its instructions (the pass
  iterates basic blocks in order and instructions in order inside each
  block; no modelled behaviour depends on block boundaries).
* Instruction names and debug locations carry no behaviour in this pass and
  are not modelled.
* Deferred deletion via the `ListDelete` / `list_delete` vectors is modelled
  by removing the queued instruction from the rebuilt instruction list at
  once: a queued instruction is never revisited by the iteration, has had
  all of its uses replaced (or, for lifetime markers, is void-valued and
  unused), and its operand references are not consulted again, so the end
  state after the final erase loop is identical.
* `assert` failures (materialization failure, the 32-bit `ctlz` requirement)
  are modelled as fatal: the pass functions return `Except String`, with
  `Except.error` for the aborted computation.
-/

set_option maxHeartbeats 1000000

namespace CMBiF

/-- LLVM IR first-class types, as far as the pass observes them.  Function
types are kept separately as `FnTy` (parameter list plus return type). -/
inductive Ty where
  | intTy (w : Nat)
  | halfTy
  | floatTy
  | doubleTy
  | ptrTy (pointee : Ty)
  | vecTy (n : Nat) (elt : Ty)
  | voidTy
deriving DecidableEq, Repr

/-- A function type: ordered parameter types plus a return type
(`llvm::FunctionType`). -/
structure FnTy where
  params : List Ty
  ret : Ty
deriving DecidableEq, Repr

/-- `Type::isIntegerTy`. -/
def Ty.isIntegerTy : Ty → Bool
  | Ty.intTy _ => true
  | _ => false

/-- `Type::getPrimitiveSizeInBits`. -/
def Ty.sizeInBits : Ty → Nat
  | Ty.intTy w => w
  | Ty.halfTy => 16
  | Ty.floatTy => 32
  | Ty.doubleTy => 64
  | Ty.vecTy n t => n * t.sizeInBits
  | _ => 0

/-- The intrinsic identifiers mentioned by the pass (`Intrinsic::ID`).
`not_intrinsic` marks ordinary functions. -/
inductive IntrinsicID where
  | not_intrinsic
  | lifetime_start
  | lifetime_end
  | ctlz
  | fma
  | genx_rnde
  | genx_rndd
  | genx_rndu
  | genx_rndz
  | genx_cos
  | genx_sin
  | genx_exp
  | genx_log
  | genx_sqrt
  | genx_cbit
  | genx_pow
  | genx_bfrev
  | genx_fmax
  | genx_fmin
  | genx_ieee_sqrt
  | genx_ieee_div
  | genx_fptosi_sat
  | genx_fptoui_sat
  | genx_lzd
deriving DecidableEq, Repr

/-- Definition status of a function: pure declaration (no body anywhere),
materializable (body present in serialized form, not yet loaded), or
defined (body loaded).  `Function::isDeclaration()` is `status = decl`
and `GlobalValue::isMaterializable()` is `status = materializable`. -/
inductive FStatus where
  | decl
  | materializable
  | defined
deriving DecidableEq, Repr

/-- Linkage classes, collapsed to what the pass distinguishes. -/
inductive Linkage where
  | externalLink
  | internalLink
  | otherLink
deriving DecidableEq, Repr

/-- An operand value.  `instrRes` is the result of the instruction with the
given SSA identity; `argRef` a positional function argument; `funcRef` a
direct reference to the function with the given identity; `bitcastFn` the
`ConstantExpr` pointer-cast of the function with the given identity (so
`stripPointerCasts` on it yields that function); `constVal` any other
constant. -/
inductive Value where
  | instrRes (vid : Nat) (ty : Ty)
  | argRef (idx : Nat) (ty : Ty)
  | funcRef (fid : Nat) (ty : Ty)
  | bitcastFn (fid : Nat) (ty : Ty)
  | constVal (vid : Nat) (ty : Ty)
deriving DecidableEq, Repr

/-- `Value::getType`. -/
def Value.ty : Value → Ty
  | Value.instrRes _ t => t
  | Value.argRef _ t => t
  | Value.funcRef _ t => t
  | Value.bitcastFn _ t => t
  | Value.constVal _ t => t

/-- The data of a call instruction: result identity, result type, the
callee operand, the function type of the call
(`CallBase::getFunctionType`), the argument operands in order, and the
calling convention. -/
structure CallData where
  res : Nat
  retTy : Ty
  calleeOp : Value
  fnTy : FnTy
  args : List Value
  cconv : Nat
deriving DecidableEq, Repr

/-- Instructions, restricted to the shapes the pass distinguishes:
call instructions, the conversion and float arithmetic instructions it
creates, and an opaque `other` shape (with result identity, type and
operand list) for everything else. -/
inductive Instr where
  | call (c : CallData)
  | siToFP (res : Nat) (arg : Value) (toTy : Ty)
  | uiToFP (res : Nat) (arg : Value) (toTy : Ty)
  | fmul (res : Nat) (a b : Value)
  | fadd (res : Nat) (a b : Value)
  | other (res : Nat) (ty : Ty) (ops : List Value)
deriving DecidableEq, Repr

/-- `CallInst::getOperand(0)`: the operands of a call are its arguments
followed by the callee, so operand 0 is the first argument when there is
one and the callee otherwise. -/
def CallData.operand0 (c : CallData) : Value :=
  match c.args with
  | [] => c.calleeOp
  | a :: _ => a

/-- An LLVM function.  `intrTys` records, for declarations produced by
`Intrinsic::getDeclaration`, the ordered type parameters the intrinsic was
instantiated with (for ordinary functions it is empty).  `matFails` models
the externally supplied outcome of `materialize()`: `some msg` means
loading the body fails with that reason.  `attrs` is the opaque attribute
bundle, `cconv` the calling convention. -/
structure Func where
  fid : Nat
  name : String
  iid : IntrinsicID
  intrTys : List Ty
  params : List Ty
  retTy : Ty
  status : FStatus
  body : List Instr
  matFails : Option String
  linkage : Linkage
  dllExport : Bool
  cconv : Nat
  attrs : Nat
deriving DecidableEq, Repr

/-- `Function::getFunctionType`. -/
def Func.fnTy (f : Func) : FnTy := ⟨f.params, f.retTy⟩

/-- A global variable, as far as the pass observes it. -/
structure GlobalVar where
  name : String
  isDecl : Bool
  linkage : Linkage
deriving DecidableEq, Repr

/-- An IR module.  `fresh` is the next unused identity; it stands for the
allocation of new `Value` / `Function` objects, which in the source are
fresh pointers. -/
structure Module where
  funcs : List Func
  globals : List GlobalVar
  fresh : Nat
deriving DecidableEq, Repr

/-- Look a function up by identity (a pointer dereference in the source;
identities are assumed unique, as pointers are). -/
def findFunc (funcs : List Func) (fid : Nat) : Option Func :=
  funcs.find? (fun f => decide (f.fid = fid))

/-- String prefix test (`StringRef::startswith`). -/
def strStartsWith (s p : String) : Bool :=
  p.toList.isPrefixOf s.toList

/-- The one-intrinsic rewrite table `OneMap`, exactly as built by
`BIConvert::BIConvert()`. -/
def OneMap : String → Option IntrinsicID
  | "__builtin_IB_frnd_ne" => some IntrinsicID.genx_rnde
  | "__builtin_IB_ftoh_rtn" => some IntrinsicID.genx_rndd
  | "__builtin_IB_ftoh_rtp" => some IntrinsicID.genx_rndu
  | "__builtin_IB_ftoh_rtz" => some IntrinsicID.genx_rndz
  | "__builtin_IB_dtoh_rtn" => some IntrinsicID.genx_rnde
  | "__builtin_IB_dtoh_rtp" => some IntrinsicID.genx_rndu
  | "__builtin_IB_dtoh_rtz" => some IntrinsicID.genx_rndz
  | "__builtin_IB_dtof_rtn" => some IntrinsicID.genx_rnde
  | "__builtin_IB_dtof_rtp" => some IntrinsicID.genx_rndu
  | "__builtin_IB_dtof_rtz" => some IntrinsicID.genx_rndz
  | "__builtin_IB_frnd_pi" => some IntrinsicID.genx_rndu
  | "__builtin_IB_frnd_ni" => some IntrinsicID.genx_rndd
  | "__builtin_IB_frnd_zi" => some IntrinsicID.genx_rndz
  | "__builtin_IB_native_cosf" => some IntrinsicID.genx_cos
  | "__builtin_IB_native_cosh" => some IntrinsicID.genx_cos
  | "__builtin_IB_native_sinf" => some IntrinsicID.genx_sin
  | "__builtin_IB_native_sinh" => some IntrinsicID.genx_sin
  | "__builtin_IB_native_exp2f" => some IntrinsicID.genx_exp
  | "__builtin_IB_native_exp2h" => some IntrinsicID.genx_exp
  | "__builtin_IB_native_log2f" => some IntrinsicID.genx_log
  | "__builtin_IB_native_log2h" => some IntrinsicID.genx_log
  | "__builtin_IB_native_sqrtf" => some IntrinsicID.genx_sqrt
  | "__builtin_IB_native_sqrth" => some IntrinsicID.genx_sqrt
  | "__builtin_IB_native_sqrtd" => some IntrinsicID.genx_sqrt
  | "__builtin_IB_popcount_1u32" => some IntrinsicID.genx_cbit
  | "__builtin_IB_popcount_1u16" => some IntrinsicID.genx_cbit
  | "__builtin_IB_popcount_1u8" => some IntrinsicID.genx_cbit
  | "__builtin_IB_native_powrf" => some IntrinsicID.genx_pow
  | "__builtin_IB_fma" => some IntrinsicID.fma
  | "__builtin_IB_fmah" => some IntrinsicID.fma
  | "__builtin_IB_bfrev" => some IntrinsicID.genx_bfrev
  | "__builtin_IB_fmax" => some IntrinsicID.genx_fmax
  | "__builtin_IB_fmin" => some IntrinsicID.genx_fmin
  | "__builtin_IB_HMAX" => some IntrinsicID.genx_fmax
  | "__builtin_IB_HMIN" => some IntrinsicID.genx_fmin
  | "__builtin_IB_dmin" => some IntrinsicID.genx_fmin
  | "__builtin_IB_dmax" => some IntrinsicID.genx_fmax
  | "__builtin_IB_ieee_sqrt" => some IntrinsicID.genx_ieee_sqrt
  | "__builtin_IB_ieee_divide" => some IntrinsicID.genx_ieee_div
  | "__builtin_IB_ieee_divide_f64" => some IntrinsicID.genx_ieee_div
  | _ => none

/-- The two-intrinsic rewrite table `TwoMap`, exactly as built by
`BIConvert::BIConvert()`. -/
def TwoMap : String → Option (IntrinsicID × IntrinsicID)
  | "__builtin_IB_dtoi8_rtn" => some (IntrinsicID.genx_rndd, IntrinsicID.genx_fptosi_sat)
  | "__builtin_IB_dtoi8_rtp" => some (IntrinsicID.genx_rndu, IntrinsicID.genx_fptosi_sat)
  | "__builtin_IB_dtoi8_rte" => some (IntrinsicID.genx_rnde, IntrinsicID.genx_fptosi_sat)
  | "__builtin_IB_dtoi16_rtn" => some (IntrinsicID.genx_rndd, IntrinsicID.genx_fptosi_sat)
  | "__builtin_IB_dtoi16_rtp" => some (IntrinsicID.genx_rndu, IntrinsicID.genx_fptosi_sat)
  | "__builtin_IB_dtoi16_rte" => some (IntrinsicID.genx_rnde, IntrinsicID.genx_fptosi_sat)
  | "__builtin_IB_dtoi32_rtn" => some (IntrinsicID.genx_rndd, IntrinsicID.genx_fptosi_sat)
  | "__builtin_IB_dtoi32_rtp" => some (IntrinsicID.genx_rndu, IntrinsicID.genx_fptosi_sat)
  | "__builtin_IB_dtoi32_rte" => some (IntrinsicID.genx_rnde, IntrinsicID.genx_fptosi_sat)
  | "__builtin_IB_dtoi64_rtn" => some (IntrinsicID.genx_rndd, IntrinsicID.genx_fptosi_sat)
  | "__builtin_IB_dtoi64_rtp" => some (IntrinsicID.genx_rndu, IntrinsicID.genx_fptosi_sat)
  | "__builtin_IB_dtoi64_rte" => some (IntrinsicID.genx_rnde, IntrinsicID.genx_fptosi_sat)
  | "__builtin_IB_dtoui8_rtn" => some (IntrinsicID.genx_rndd, IntrinsicID.genx_fptoui_sat)
  | "__builtin_IB_dtoui8_rtp" => some (IntrinsicID.genx_rndu, IntrinsicID.genx_fptoui_sat)
  | "__builtin_IB_dtoui8_rte" => some (IntrinsicID.genx_rnde, IntrinsicID.genx_fptoui_sat)
  | "__builtin_IB_dtoui16_rtn" => some (IntrinsicID.genx_rndd, IntrinsicID.genx_fptoui_sat)
  | "__builtin_IB_dtoui16_rtp" => some (IntrinsicID.genx_rndu, IntrinsicID.genx_fptoui_sat)
  | "__builtin_IB_dtoui16_rte" => some (IntrinsicID.genx_rnde, IntrinsicID.genx_fptoui_sat)
  | "__builtin_IB_dtoui32_rtn" => some (IntrinsicID.genx_rndd, IntrinsicID.genx_fptoui_sat)
  | "__builtin_IB_dtoui32_rtp" => some (IntrinsicID.genx_rndu, IntrinsicID.genx_fptoui_sat)
  | "__builtin_IB_dtoui32_rte" => some (IntrinsicID.genx_rnde, IntrinsicID.genx_fptoui_sat)
  | "__builtin_IB_dtoui64_rtn" => some (IntrinsicID.genx_rndd, IntrinsicID.genx_fptoui_sat)
  | "__builtin_IB_dtoui64_rtp" => some (IntrinsicID.genx_rndu, IntrinsicID.genx_fptoui_sat)
  | "__builtin_IB_dtoui64_rte" => some (IntrinsicID.genx_rnde, IntrinsicID.genx_fptoui_sat)
  | "__builtin_IB_fma_rtz_f64" => some (IntrinsicID.fma, IntrinsicID.genx_rndz)
  | "__builtin_IB_fma_rtz_f32" => some (IntrinsicID.fma, IntrinsicID.genx_rndz)
  | _ => none

/-! ## replaceAllUsesWith -/

/-- A pending `replaceAllUsesWith`: every use of the instruction result
with identity `oldId` becomes a use of the result with identity `newId`
(of type `newTy`). -/
structure Sub where
  oldId : Nat
  newId : Nat
  newTy : Ty
deriving DecidableEq, Repr

/-- Apply one `replaceAllUsesWith` to an operand. -/
def substValue (s : Sub) : Value → Value
  | Value.instrRes v t => if v = s.oldId then Value.instrRes s.newId s.newTy else Value.instrRes v t
  | v => v

/-- Apply one `replaceAllUsesWith` to every operand of an instruction. -/
def substInstr (s : Sub) : Instr → Instr
  | Instr.call c => Instr.call { c with calleeOp := substValue s c.calleeOp,
                                        args := c.args.map (substValue s) }
  | Instr.siToFP r a t => Instr.siToFP r (substValue s a) t
  | Instr.uiToFP r a t => Instr.uiToFP r (substValue s a) t
  | Instr.fmul r a b => Instr.fmul r (substValue s a) (substValue s b)
  | Instr.fadd r a b => Instr.fadd r (substValue s a) (substValue s b)
  | Instr.other r t os => Instr.other r t (os.map (substValue s))

/-- Apply a sequence of `replaceAllUsesWith` actions, oldest first. -/
def applySubsts (σ : List Sub) (i : Instr) : Instr :=
  σ.foldl (fun j s => substInstr s j) i

/-! ## The Call Rewriter (`BIConvert::runOnModule`) -/

/-- Name of a target intrinsic (`Intrinsic::getName`; the per-instantiation
overload suffix is not modelled, declarations are identified by
`(iid, intrTys)`). -/
def intrinsicName : IntrinsicID → String
  | IntrinsicID.not_intrinsic => ""
  | IntrinsicID.lifetime_start => "llvm.lifetime.start"
  | IntrinsicID.lifetime_end => "llvm.lifetime.end"
  | IntrinsicID.ctlz => "llvm.ctlz"
  | IntrinsicID.fma => "llvm.fma"
  | IntrinsicID.genx_rnde => "llvm.genx.rnde"
  | IntrinsicID.genx_rndd => "llvm.genx.rndd"
  | IntrinsicID.genx_rndu => "llvm.genx.rndu"
  | IntrinsicID.genx_rndz => "llvm.genx.rndz"
  | IntrinsicID.genx_cos => "llvm.genx.cos"
  | IntrinsicID.genx_sin => "llvm.genx.sin"
  | IntrinsicID.genx_exp => "llvm.genx.exp"
  | IntrinsicID.genx_log => "llvm.genx.log"
  | IntrinsicID.genx_sqrt => "llvm.genx.sqrt"
  | IntrinsicID.genx_cbit => "llvm.genx.cbit"
  | IntrinsicID.genx_pow => "llvm.genx.pow"
  | IntrinsicID.genx_bfrev => "llvm.genx.bfrev"
  | IntrinsicID.genx_fmax => "llvm.genx.fmax"
  | IntrinsicID.genx_fmin => "llvm.genx.fmin"
  | IntrinsicID.genx_ieee_sqrt => "llvm.genx.ieee.sqrt"
  | IntrinsicID.genx_ieee_div => "llvm.genx.ieee.div"
  | IntrinsicID.genx_fptosi_sat => "llvm.genx.fptosi.sat"
  | IntrinsicID.genx_fptoui_sat => "llvm.genx.fptoui.sat"
  | IntrinsicID.genx_lzd => "llvm.genx.lzd"

/-- Return type of a target intrinsic instantiated with the given type
parameters.  This rule is supplied by the target backend description; for
every intrinsic used by this pass the result type is the first type
parameter (the `rnd`/math/`lzd`/`fma` families are overloaded on their one
operand-and-result type, and the `fptosi_sat`/`fptoui_sat` pair on
(result type, operand type)). -/
def intrinsicRetTy (_iid : IntrinsicID) (tys : List Ty) : Ty :=
  tys.headD Ty.voidTy

/-- Mutable state of `BIConvert::runOnModule`: the module's function list
(it grows when `Intrinsic::getDeclaration` creates a declaration) and the
fresh-identity counter. -/
structure ConvSt where
  funcs : List Func
  fresh : Nat
deriving DecidableEq, Repr

/-- The declaration `Intrinsic::getDeclaration` creates when the intrinsic
instantiation is not yet present in the module.  (The intrinsic's
parameter signature is supplied by the target description and never
observed by this pass, so it is not modelled.) -/
def intrinsicDeclFunc (iid : IntrinsicID) (tys : List Ty) (fid : Nat) : Func :=
  { fid := fid, name := intrinsicName iid, iid := iid,
    intrTys := tys, params := [], retTy := intrinsicRetTy iid tys,
    status := FStatus.decl, body := [], matFails := none,
    linkage := Linkage.externalLink, dllExport := false,
    cconv := 0, attrs := 0 }

/-- `Intrinsic::getDeclaration(&M, iid, tys)`: return the module's
declaration of the intrinsic instantiated at `tys`, creating and appending
it if absent. -/
def getDeclaration (st : ConvSt) (iid : IntrinsicID) (tys : List Ty) : ConvSt × Nat :=
  match st.funcs.find? (fun f => decide (f.iid = iid ∧ f.intrTys = tys)) with
  | some f => (st, f.fid)
  | none =>
    ({ funcs := st.funcs ++ [intrinsicDeclFunc iid tys st.fresh], fresh := st.fresh + 1 },
     st.fresh)

/-- Build the call instruction `CallInst::Create(intrinsic decl, args)`
inserted in front of the rewritten call (new calls are created with the
default calling convention). -/
def mkIntrinCall (res : Nat) (dfid : Nat) (rty : Ty) (args : List Value) : CallData :=
  { res := res, retTy := rty, calleeOp := Value.funcRef dfid (Ty.ptrTy rty),
    fnTy := ⟨args.map Value.ty, rty⟩, args := args, cconv := 0 }

/-- One step of the instruction loop of `BIConvert::runOnModule`: how the
pass treats a single instruction.  The result is the updated state, the
list of instructions standing at the old instruction's position afterwards
(replacements inserted in front of it, with the instruction itself removed
when it was queued on `ListDelete`), and the pending `replaceAllUsesWith`
if one was issued. -/
def convertInstr (st : ConvSt) (i : Instr) :
    Except String (ConvSt × List Instr × Option Sub) :=
  match i with
  | Instr.call c =>
    match c.calleeOp with
    | Value.funcRef fid _ =>
      match findFunc st.funcs fid with
      | none => Except.ok (st, [i], none)
      | some callee =>
        if callee.iid = IntrinsicID.lifetime_start ∨ callee.iid = IntrinsicID.lifetime_end then
          -- lifetime markers are deleted without replacement
          Except.ok (st, [], none)
        else if callee.iid = IntrinsicID.ctlz then
          let src := c.operand0
          let srcTy := src.ty
          if ¬ srcTy.isIntegerTy then
            Except.error "CMImportBiF assert failure: SrcTy->isIntegerTy()"
          else if ¬ srcTy.sizeInBits = 32 then
            Except.error "CMImportBiF assert failure: SrcTy->getPrimitiveSizeInBits() == 32"
          else
            let p := getDeclaration st IntrinsicID.genx_lzd [srcTy]
            let rty := intrinsicRetTy IntrinsicID.genx_lzd [srcTy]
            let newC := mkIntrinCall p.1.fresh p.2 rty [src]
            Except.ok ({ p.1 with fresh := p.1.fresh + 1 }, [Instr.call newC],
                       some ⟨c.res, newC.res, rty⟩)
        else
          match OneMap callee.name with
          | some iid =>
            let tys := [callee.retTy]
            let p := getDeclaration st iid tys
            let rty := intrinsicRetTy iid tys
            let newC := mkIntrinCall p.1.fresh p.2 rty c.args
            Except.ok ({ p.1 with fresh := p.1.fresh + 1 }, [Instr.call newC],
                       some ⟨c.res, newC.res, rty⟩)
          | none =>
            match TwoMap callee.name with
            | some pr =>
              match c.args with
              | [] => Except.error "CMImportBiF assert failure: getArgOperand(0) out of range"
              | a0 :: _ =>
                let tys0 := [a0.ty]
                let p0 := getDeclaration st pr.1 tys0
                let rty0 := intrinsicRetTy pr.1 tys0
                let call0 := mkIntrinCall p0.1.fresh p0.2 rty0 c.args
                let st1 : ConvSt := { p0.1 with fresh := p0.1.fresh + 1 }
                let tys1 := [callee.retTy, rty0]
                let p1 := getDeclaration st1 pr.2 tys1
                let rty1 := intrinsicRetTy pr.2 tys1
                let call1 := mkIntrinCall p1.1.fresh p1.2 rty1 [Value.instrRes call0.res rty0]
                Except.ok ({ p1.1 with fresh := p1.1.fresh + 1 },
                           [Instr.call call0, Instr.call call1],
                           some ⟨c.res, call1.res, rty1⟩)
            | none =>
              if strStartsWith callee.name "__builtin_IB_itof" then
                match c.args with
                | [] => Except.error "CMImportBiF assert failure: getArgOperand(0) out of range"
                | a0 :: _ =>
                  Except.ok ({ st with fresh := st.fresh + 1 },
                             [Instr.siToFP st.fresh a0 callee.retTy],
                             some ⟨c.res, st.fresh, callee.retTy⟩)
              else if strStartsWith callee.name "__builtin_IB_uitof" then
                match c.args with
                | [] => Except.error "CMImportBiF assert failure: getArgOperand(0) out of range"
                | a0 :: _ =>
                  Except.ok ({ st with fresh := st.fresh + 1 },
                             [Instr.uiToFP st.fresh a0 callee.retTy],
                             some ⟨c.res, st.fresh, callee.retTy⟩)
              else if strStartsWith callee.name "__builtin_IB_mul_rtz" then
                match c.args with
                | a0 :: a1 :: _ =>
                  let mulRes := st.fresh
                  let st1 : ConvSt := { st with fresh := st.fresh + 1 }
                  let p := getDeclaration st1 IntrinsicID.genx_rndz [a0.ty]
                  let rty := intrinsicRetTy IntrinsicID.genx_rndz [a0.ty]
                  let newC := mkIntrinCall p.1.fresh p.2 rty [Value.instrRes mulRes a0.ty]
                  Except.ok ({ p.1 with fresh := p.1.fresh + 1 },
                             [Instr.fmul mulRes a0 a1, Instr.call newC],
                             some ⟨c.res, newC.res, rty⟩)
                | _ => Except.error "CMImportBiF assert failure: getArgOperand out of range"
              else if strStartsWith callee.name "__builtin_IB_add_rtz" then
                match c.args with
                | a0 :: a1 :: _ =>
                  let addRes := st.fresh
                  let st1 : ConvSt := { st with fresh := st.fresh + 1 }
                  let p := getDeclaration st1 IntrinsicID.genx_rndz [a0.ty]
                  let rty := intrinsicRetTy IntrinsicID.genx_rndz [a0.ty]
                  let newC := mkIntrinCall p.1.fresh p.2 rty [Value.instrRes addRes a0.ty]
                  Except.ok ({ p.1 with fresh := p.1.fresh + 1 },
                             [Instr.fadd addRes a0 a1, Instr.call newC],
                             some ⟨c.res, newC.res, rty⟩)
                | _ => Except.error "CMImportBiF assert failure: getArgOperand out of range"
              else
                Except.ok (st, [i], none)
    | _ => Except.ok (st, [i], none)
  | _ => Except.ok (st, [i], none)

/-- The instruction loop of `BIConvert::runOnModule` over one function
body.  `done` is the already rebuilt front of the body, `σ` the
`replaceAllUsesWith` actions issued so far (a use sitting later in the
body is rewritten when the iteration reaches it, which is equivalent to
the source's immediate in-place replacement because replaced operands are
only read at their instruction). -/
def convertBody (st : ConvSt) (done : List Instr) (σ : List Sub) :
    List Instr → Except String (ConvSt × List Instr)
  | [] => Except.ok (st, done)
  | i :: rest =>
    match convertInstr st (applySubsts σ i) with
    | Except.error e => Except.error e
    | Except.ok (st1, emitted, none) => convertBody st1 (done ++ emitted) σ rest
    | Except.ok (st1, emitted, some s) =>
      convertBody st1 ((done ++ emitted).map (substInstr s)) (σ ++ [s]) rest

/-- The function loop of `BIConvert::runOnModule`: rebuild every function
body in order, returning the rebuilt bodies keyed by function identity.
(Intrinsic declarations appended during the loop have empty bodies, so
iterating them — as the source's range-for does — is a no-op and they
need no entry.) -/
def convertFuncs (st : ConvSt) : List Func → Except String (ConvSt × List (Nat × List Instr))
  | [] => Except.ok (st, [])
  | f :: rest =>
    match convertBody st [] [] f.body with
    | Except.error e => Except.error e
    | Except.ok (st1, newBody) =>
      match convertFuncs st1 rest with
      | Except.error e => Except.error e
      | Except.ok (st2, others) => Except.ok (st2, (f.fid, newBody) :: others)

/-- Install the rebuilt body of a function, if one was recorded for it. -/
def installBody (bodies : List (Nat × List Instr)) (f : Func) : Func :=
  match bodies.find? (fun p => decide (p.1 = f.fid)) with
  | some p => { f with body := p.2 }
  | none => f

/-- The linkage-demotion tail of `BIConvert::runOnModule`: every
non-declaration global and every non-intrinsic, non-declaration,
non-dllexport function is set to internal linkage. -/
def demoteLinkage (M : Module) : Module :=
  { M with
    globals := M.globals.map (fun g =>
      if g.isDecl = false then { g with linkage := Linkage.internalLink } else g),
    funcs := M.funcs.map (fun f =>
      if f.iid = IntrinsicID.not_intrinsic ∧ f.status ≠ FStatus.decl ∧ f.dllExport = false then
        { f with linkage := Linkage.internalLink }
      else f) }

/-- `BIConvert::runOnModule`: rewrite every call instruction of every
function against the tables and hard-coded patterns, erase the queued
instructions, then demote linkage. -/
def BIConvert.runOnModule (M : Module) : Except String Module :=
  match convertFuncs { funcs := M.funcs, fresh := M.fresh } M.funcs with
  | Except.error e => Except.error e
  | Except.ok (st, bodies) =>
    Except.ok (demoteLinkage { funcs := st.funcs.map (installBody bodies),
                               globals := M.globals, fresh := st.fresh })

/-! ## The Demand-Driven Linker (`CMImportBiF`'s `Explore` lambda) -/

/-- The two modules the walk works on: the main module being compiled and
the builtin-function library module. -/
structure LinkSt where
  main : Module
  lib : Module
deriving DecidableEq, Repr

/-- Dereference a function identity across both modules (a plain pointer
dereference in the source; identities are unique across both modules). -/
def findFunc2 (st : LinkSt) (fid : Nat) : Option Func :=
  match findFunc st.main.funcs fid with
  | some f => some f
  | none => findFunc st.lib.funcs fid

/-- Apply an update to the function with the given identity, wherever it
lives. -/
def updFunc (st : LinkSt) (fid : Nat) (g : Func → Func) : LinkSt :=
  { main := { st.main with funcs := st.main.funcs.map (fun f => if f.fid = fid then g f else f) },
    lib := { st.lib with funcs := st.lib.funcs.map (fun f => if f.fid = fid then g f else f) } }

/-- Successful `materialize()`: the serialized body becomes the loaded
body. -/
def materializeFunc (st : LinkSt) (fid : Nat) : LinkSt :=
  updFunc st fid (fun g => { g with status := FStatus.defined })

/-- `Function::setCallingConv`. -/
def setFuncCConv (st : LinkSt) (fid : Nat) (cc : Nat) : LinkSt :=
  updFunc st fid (fun g => { g with cconv := cc })

/-- `CallInst::setCallingConv` on an instruction (no-op on
non-calls). -/
def setInstrCConv (cc : Nat) : Instr → Instr
  | Instr.call c => Instr.call { c with cconv := cc }
  | i => i

/-- `CallInst::getCalledFunction` as an identity: `some fid` exactly when
the callee operand is a direct function reference. -/
def directCallee : Instr → Option Nat
  | Instr.call c =>
    match c.calleeOp with
    | Value.funcRef fid _ => some fid
    | _ => none
  | _ => none

/-- First-encounter-order deduplication (the `visitedSet` of
`GetCalledFunctions`). -/
def dedupAcc (seen : List Nat) : List Nat → List Nat
  | [] => []
  | x :: xs => if x ∈ seen then dedupAcc seen xs else x :: dedupAcc (seen ++ [x]) xs

/-- The list of distinct direct callees of a body, in first-call order
(`GetCalledFunctions`' `calledFuncs`). -/
def calledFids (body : List Instr) : List Nat :=
  dedupAcc [] (body.filterMap directCallee)

/-- `GetCalledFunctions(pFunc, calledFuncs)` plus the entry of
`Explore(pFunc)`: propagate `pFunc`'s calling convention onto every call
instruction of its body and collect its distinct direct callees.  Returns
the updated state and the callee worklist of the new exploration frame. -/
def enterFunc (st : LinkSt) (fid : Nat) : LinkSt × List Nat :=
  match findFunc2 st fid with
  | none => (st, [])
  | some f =>
    (updFunc st fid (fun g => { g with body := g.body.map (setInstrCConv g.cconv) }),
     calledFids f.body)

/-- `GetBuiltinFunction(funcName, BiFModule)`: the library function of
that name, provided it is not itself merely a declaration. -/
def GetBuiltinFunction (lib : Module) (funcName : String) : Option Func :=
  match lib.funcs.find? (fun f => decide (f.name = funcName)) with
  | some f => if f.status = FStatus.decl then none else some f
  | none => none

/-- How the `Explore` lambda handles one callee of the current root:
resolve it (directly if it is not a declaration, through the library
otherwise), and if the resolved function is materializable, load its body
(fatal on failure), propagate the root's calling convention onto it and
recurse into it.  The result carries the new exploration frame to push
when recursion happens. -/
def exploreStep (st : LinkSt) (rootFid calleeFid : Nat) :
    Except String (LinkSt × Option (Nat × List Nat)) :=
  match findFunc2 st calleeFid with
  | none => Except.ok (st, none)
  | some callee =>
    match (if callee.status = FStatus.decl then GetBuiltinFunction st.lib callee.name
           else some callee) with
    | none => Except.ok (st, none)
    | some pf =>
      if pf.status = FStatus.materializable then
        match pf.matFails with
        | some msg => Except.error ("===> Materialize Failure: " ++ msg)
        | none =>
          let st1 := materializeFunc st pf.fid
          let rootCC := ((findFunc2 st1 rootFid).map Func.cconv).getD 0
          let st2 := setFuncCConv st1 pf.fid rootCC
          let p := enterFunc st2 pf.fid
          Except.ok (p.1, some (pf.fid, p.2))
      else Except.ok (st, none)

/-- The number of still-materializable functions across both modules; the
termination measure of the walk (each recursive `Explore` call happens
right after one materializable function was loaded). -/
def matCountL (l : List Func) : Nat :=
  l.countP (fun f => decide (f.status = FStatus.materializable))

/-- Total count of materializable functions. -/
def matCount (st : LinkSt) : Nat :=
  matCountL st.main.funcs + matCountL st.lib.funcs

/-- Weight of the pending exploration frames. -/
def pendWeight (frames : List (Nat × List Nat)) : Nat :=
  (frames.map (fun fr => fr.2.length + 1)).sum

theorem matCountL_cons (f : Func) (l : List Func) :
    matCountL (f :: l) = matCountL l + (if f.status = FStatus.materializable then 1 else 0) := by
  unfold matCountL
  rw [List.countP_cons]
  by_cases h : f.status = FStatus.materializable <;> simp [h]

theorem matCountL_materialize_le (l : List Func) (fid : Nat) :
    matCountL (l.map (fun f => if f.fid = fid then { f with status := FStatus.defined } else f))
      ≤ matCountL l := by
  induction l with
  | nil => simp [matCountL]
  | cons f rest ih =>
    rw [List.map_cons, matCountL_cons, matCountL_cons]
    by_cases hf : f.fid = fid
    · rw [if_pos hf]
      have h0 : ({ f with status := FStatus.defined } : Func).status = FStatus.defined := rfl
      rw [h0]
      have h1 : (if FStatus.defined = FStatus.materializable then 1 else 0) = 0 := by decide
      rw [h1]
      omega
    · rw [if_neg hf]
      omega

theorem matCountL_materialize_lt (l : List Func) (fid : Nat)
    (h : ∃ f ∈ l, f.fid = fid ∧ f.status = FStatus.materializable) :
    matCountL (l.map (fun f => if f.fid = fid then { f with status := FStatus.defined } else f))
      < matCountL l := by
  induction l with
  | nil => simp at h
  | cons f rest ih =>
    rcases h with ⟨g, hg, hfid, hst⟩
    rw [List.mem_cons] at hg
    rw [List.map_cons, matCountL_cons, matCountL_cons]
    rcases hg with rfl | hg
    · rw [if_pos hfid]
      have h0 : ({ g with status := FStatus.defined } : Func).status = FStatus.defined := rfl
      rw [h0, hst]
      have h1 : (if FStatus.defined = FStatus.materializable then 1 else 0) = 0 := by decide
      have h2 : (if FStatus.materializable = FStatus.materializable then 1 else 0) = 1 := by decide
      rw [h1, h2]
      have := matCountL_materialize_le rest fid
      omega
    · have hlt := ih ⟨g, hg, hfid, hst⟩
      by_cases hf : f.fid = fid
      · rw [if_pos hf]
        have h0 : ({ f with status := FStatus.defined } : Func).status = FStatus.defined := rfl
        rw [h0]
        have h1 : (if FStatus.defined = FStatus.materializable then 1 else 0) = 0 := by decide
        rw [h1]
        omega
      · rw [if_neg hf]
        omega

theorem matCountL_statusPreserving (l : List Func) (u : Func → Func)
    (h : ∀ f, (u f).status = f.status) :
    matCountL (l.map u) = matCountL l := by
  induction l with
  | nil => rfl
  | cons f rest ih =>
    simp only [List.map_cons, matCountL, List.countP_cons] at *
    rw [h f, ih]

theorem matCount_setCConv (st : LinkSt) (fid cc : Nat) :
    matCount (setFuncCConv st fid cc) = matCount st := by
  unfold matCount setFuncCConv updFunc
  rw [matCountL_statusPreserving, matCountL_statusPreserving] <;>
    intro f <;> split <;> rfl

theorem matCount_enterFunc (st : LinkSt) (fid : Nat) :
    matCount (enterFunc st fid).1 = matCount st := by
  unfold enterFunc
  cases h : findFunc2 st fid with
  | none => rfl
  | some f =>
    simp only
    unfold matCount updFunc
    rw [matCountL_statusPreserving, matCountL_statusPreserving] <;>
      intro g <;> split <;> rfl

theorem mem_of_findFunc2 (st : LinkSt) (fid : Nat) (f : Func)
    (h : findFunc2 st fid = some f) : f ∈ st.main.funcs ∨ f ∈ st.lib.funcs := by
  unfold findFunc2 findFunc at h
  cases hm : st.main.funcs.find? (fun g => decide (g.fid = fid)) with
  | some g =>
    rw [hm] at h
    exact Or.inl (by cases h; exact List.mem_of_find?_eq_some hm)
  | none =>
    rw [hm] at h
    exact Or.inr (List.mem_of_find?_eq_some h)

theorem fid_of_findFunc2 (st : LinkSt) (fid : Nat) (f : Func)
    (h : findFunc2 st fid = some f) : f.fid = fid := by
  unfold findFunc2 findFunc at h
  cases hm : st.main.funcs.find? (fun g => decide (g.fid = fid)) with
  | some g =>
    rw [hm] at h
    cases h
    have := List.find?_some hm
    simpa using this
  | none =>
    rw [hm] at h
    have := List.find?_some h
    simpa using this

theorem mem_of_getBuiltin (lib : Module) (nm : String) (f : Func)
    (h : GetBuiltinFunction lib nm = some f) : f ∈ lib.funcs := by
  unfold GetBuiltinFunction at h
  cases hm : lib.funcs.find? (fun g => decide (g.name = nm)) with
  | some g =>
    simp only [hm] at h
    by_cases hd : g.status = FStatus.decl
    · rw [if_pos hd] at h; cases h
    · rw [if_neg hd] at h; cases h; exact List.mem_of_find?_eq_some hm
  | none => exact Option.noConfusion (hm ▸ h)

theorem matCount_materialize_lt (st : LinkSt) (pf : Func)
    (hmem : pf ∈ st.main.funcs ∨ pf ∈ st.lib.funcs)
    (hmat : pf.status = FStatus.materializable) :
    matCount (materializeFunc st pf.fid) < matCount st := by
  unfold matCount materializeFunc updFunc
  rcases hmem with hmem | hmem
  · have h1 := matCountL_materialize_lt st.main.funcs pf.fid ⟨pf, hmem, rfl, hmat⟩
    have h2 := matCountL_materialize_le st.lib.funcs pf.fid
    simp only
    omega
  · have h1 := matCountL_materialize_le st.main.funcs pf.fid
    have h2 := matCountL_materialize_lt st.lib.funcs pf.fid ⟨pf, hmem, rfl, hmat⟩
    simp only
    omega

theorem exploreStep_ok_none (st st2 : LinkSt) (r c : Nat)
    (h : exploreStep st r c = Except.ok (st2, none)) : st2 = st := by
  unfold exploreStep at h
  cases hf : findFunc2 st c with
  | none =>
    simp only [hf, Except.ok.injEq, Prod.mk.injEq] at h
    exact h.1.symm
  | some callee =>
    simp only [hf] at h
    cases hres : (if callee.status = FStatus.decl then GetBuiltinFunction st.lib callee.name
                  else some callee) with
    | none =>
      simp only [hres, Except.ok.injEq, Prod.mk.injEq] at h
      exact h.1.symm
    | some pf =>
      simp only [hres] at h
      by_cases hmat : pf.status = FStatus.materializable
      · rw [if_pos hmat] at h
        cases hmf : pf.matFails with
        | some m =>
          simp only [hmf] at h
          exact Except.noConfusion h
        | none =>
          simp only [hmf, Except.ok.injEq, Prod.mk.injEq] at h
          exact Option.noConfusion h.2
      · rw [if_neg hmat] at h
        simp only [Except.ok.injEq, Prod.mk.injEq] at h
        exact h.1.symm

theorem exploreStep_ok_some (st st2 : LinkSt) (r c : Nat) (fr : Nat × List Nat)
    (h : exploreStep st r c = Except.ok (st2, some fr)) : matCount st2 < matCount st := by
  unfold exploreStep at h
  cases hf : findFunc2 st c with
  | none =>
    simp only [hf, Except.ok.injEq, Prod.mk.injEq] at h
    exact Option.noConfusion h.2
  | some callee =>
    simp only [hf] at h
    cases hres : (if callee.status = FStatus.decl then GetBuiltinFunction st.lib callee.name
                  else some callee) with
    | none =>
      simp only [hres, Except.ok.injEq, Prod.mk.injEq] at h
      exact Option.noConfusion h.2
    | some pf =>
      simp only [hres] at h
      have hpfmem : pf ∈ st.main.funcs ∨ pf ∈ st.lib.funcs := by
        by_cases hd : callee.status = FStatus.decl
        · rw [if_pos hd] at hres
          exact Or.inr (mem_of_getBuiltin st.lib callee.name pf hres)
        · rw [if_neg hd] at hres
          injection hres with h2
          subst h2
          exact mem_of_findFunc2 st c callee hf
      by_cases hmat : pf.status = FStatus.materializable
      · rw [if_pos hmat] at h
        cases hmf : pf.matFails with
        | some m =>
          simp only [hmf] at h
          exact Except.noConfusion h
        | none =>
          simp only [hmf, Except.ok.injEq, Prod.mk.injEq] at h
          have hst2 : st2 = (enterFunc (setFuncCConv (materializeFunc st pf.fid)
              pf.fid (((findFunc2 (materializeFunc st pf.fid) r).map Func.cconv).getD 0))
              pf.fid).1 := h.1.symm
          rw [hst2, matCount_enterFunc, matCount_setCConv]
          exact matCount_materialize_lt st pf hpfmem hmat
      · rw [if_neg hmat] at h
        simp only [Except.ok.injEq, Prod.mk.injEq] at h
        exact Option.noConfusion h.2

/-- The exploration machine: an explicit stack of frames
`(root, remaining callees)`, exactly the call stack of the recursive
`Explore` lambda. -/
def exploreStack : LinkSt → List (Nat × List Nat) → Except String LinkSt
  | st, [] => Except.ok st
  | st, (_, []) :: frames => exploreStack st frames
  | st, (r, c :: cs) :: frames =>
    match h : exploreStep st r c with
    | Except.error e => Except.error e
    | Except.ok (st1, none) => exploreStack st1 ((r, cs) :: frames)
    | Except.ok (st1, some fr) => exploreStack st1 (fr :: (r, cs) :: frames)
termination_by st frames => (matCount st, pendWeight frames)
decreasing_by
  · apply Prod.Lex.right
    simp [pendWeight]
  · rw [exploreStep_ok_none _ _ _ _ h]
    apply Prod.Lex.right
    simp [pendWeight]
  · exact Prod.Lex.left _ _ (exploreStep_ok_some _ _ _ _ _ h)

theorem exploreStack_nil (st : LinkSt) : exploreStack st [] = Except.ok st := by
  rw [exploreStack]

theorem exploreStack_pop (st : LinkSt) (r : Nat) (K : List (Nat × List Nat)) :
    exploreStack st ((r, []) :: K) = exploreStack st K := by
  rw [exploreStack]

theorem exploreStack_cons_none (st st1 : LinkSt) (r c : Nat) (cs : List Nat)
    (K : List (Nat × List Nat))
    (h : exploreStep st r c = Except.ok (st1, none)) :
    exploreStack st ((r, c :: cs) :: K) = exploreStack st1 ((r, cs) :: K) := by
  rw [exploreStack]
  split
  · rename_i e heq
    rw [h] at heq
    cases heq
  · rename_i st2 heq
    rw [h] at heq
    injection heq with h2
    injection h2 with h3 h4
    rw [h3]
  · rename_i st2 fr heq
    rw [h] at heq
    injection heq with h2
    injection h2 with h3 h4
    cases h4

theorem exploreStack_cons_some (st st1 : LinkSt) (r c : Nat) (cs : List Nat)
    (K : List (Nat × List Nat)) (fr : Nat × List Nat)
    (h : exploreStep st r c = Except.ok (st1, some fr)) :
    exploreStack st ((r, c :: cs) :: K) = exploreStack st1 (fr :: (r, cs) :: K) := by
  rw [exploreStack]
  split
  · rename_i e heq
    rw [h] at heq
    cases heq
  · rename_i st2 heq
    rw [h] at heq
    injection heq with h2
    injection h2 with h3 h4
    cases h4
  · rename_i st2 fr2 heq
    rw [h] at heq
    injection heq with h2
    injection h2 with h3 h4
    injection h4 with h5
    rw [h3, h5]

theorem exploreStack_cons_error (st : LinkSt) (r c : Nat) (cs : List Nat)
    (K : List (Nat × List Nat)) (e : String)
    (h : exploreStep st r c = Except.error e) :
    exploreStack st ((r, c :: cs) :: K) = Except.error e := by
  rw [exploreStack]
  split
  · rename_i e2 heq
    rw [h] at heq
    injection heq with h2
    rw [h2]
  · rename_i st2 heq
    rw [h] at heq
    cases heq
  · rename_i st2 fr heq
    rw [h] at heq
    cases heq

/-- The driver loop of `CMImportBiF`: `Explore(&func)` for every function
of the main module, in order. -/
def exploreRoots (st : LinkSt) : List Nat → Except String LinkSt
  | [] => Except.ok st
  | r :: rs =>
    let p := enterFunc st r
    match exploreStack p.1 [(r, p.2)] with
    | Except.error e => Except.error e
    | Except.ok st2 => exploreRoots st2 rs

/-- The demand walk of `CMImportBiF` (exploration only; the main-module
function list itself is not changed by exploration). -/
def exploreAll (st : LinkSt) : Except String LinkSt :=
  exploreRoots st (st.main.funcs.map Func.fid)

theorem findFunc_map_update (l : List Func) (fid : Nat) (g : Func → Func)
    (hg : ∀ f, (g f).fid = f.fid) (r : Nat) :
    findFunc (l.map (fun f => if f.fid = fid then g f else f)) r =
      (findFunc l r).map (fun f => if f.fid = fid then g f else f) := by
  induction l with
  | nil => rfl
  | cons a rest ih =>
    unfold findFunc at ih ⊢
    rw [List.map_cons]
    by_cases ha : a.fid = r
    · rw [List.find?_cons_of_pos _ (by
        by_cases haf : a.fid = fid
        · rw [if_pos haf]; simp [hg a, ha]
        · rw [if_neg haf]; simp [ha]),
        List.find?_cons_of_pos _ (by simp [ha])]
      rfl
    · rw [List.find?_cons_of_neg _ (by
        by_cases haf : a.fid = fid
        · rw [if_pos haf]; simp [hg a, ha]
        · rw [if_neg haf]; simp [ha]),
        List.find?_cons_of_neg _ (by simp [ha])]
      exact ih

theorem findFunc2_updFunc (st : LinkSt) (fid : Nat) (g : Func → Func)
    (hg : ∀ f, (g f).fid = f.fid) (r : Nat) :
    findFunc2 (updFunc st fid g) r =
      (findFunc2 st r).map (fun f => if f.fid = fid then g f else f) := by
  unfold findFunc2 updFunc
  simp only
  rw [findFunc_map_update _ _ _ hg, findFunc_map_update _ _ _ hg]
  cases findFunc st.main.funcs r <;> simp

/-- Resolution step of the `Explore` lambda: an already loaded (defined)
callee is not materializable, so nothing happens and no recursion takes
place. -/
theorem exploreStep_defined (st : LinkSt) (r c : Nat) (callee : Func)
    (hfind : findFunc2 st c = some callee)
    (hdef : callee.status = FStatus.defined) :
    exploreStep st r c = Except.ok (st, none) := by
  unfold exploreStep
  simp only [hfind]
  have h1 : (if callee.status = FStatus.decl then GetBuiltinFunction st.lib callee.name
      else some callee) = some callee := by
    rw [if_neg (by rw [hdef]; decide)]
  simp only [h1]
  rw [if_neg (by rw [hdef]; decide)]

/-- Resolution step of the `Explore` lambda: a declared-only callee whose
name has no non-declaration counterpart in the library is skipped. -/
theorem exploreStep_unresolved (st : LinkSt) (r c : Nat) (callee : Func)
    (hfind : findFunc2 st c = some callee)
    (hdecl : callee.status = FStatus.decl)
    (hlib : GetBuiltinFunction st.lib callee.name = none) :
    exploreStep st r c = Except.ok (st, none) := by
  unfold exploreStep
  simp only [hfind]
  have h1 : (if callee.status = FStatus.decl then GetBuiltinFunction st.lib callee.name
      else some callee) = none := by
    rw [if_pos hdecl, hlib]
  simp only [h1]

/-- Resolution step of the `Explore` lambda: the resolved function is
materializable and loading its body fails — fatal. -/
theorem exploreStep_materialize_fail (st : LinkSt) (r c : Nat) (callee pf : Func)
    (msg : String)
    (hfind : findFunc2 st c = some callee)
    (hdecl : callee.status = FStatus.decl)
    (hlib : GetBuiltinFunction st.lib callee.name = some pf)
    (hmat : pf.status = FStatus.materializable)
    (hfail : pf.matFails = some msg) :
    exploreStep st r c = Except.error ("===> Materialize Failure: " ++ msg) := by
  unfold exploreStep
  simp only [hfind]
  have h1 : (if callee.status = FStatus.decl then GetBuiltinFunction st.lib callee.name
      else some callee) = some pf := by
    rw [if_pos hdecl, hlib]
  simp only [h1]
  rw [if_pos hmat]
  simp only [hfail]

/-- Resolution step of the `Explore` lambda: the resolved function is
materializable and loading succeeds — its body is loaded, the root's
calling convention is propagated onto it, and the walk recurses into it
(a new frame with its distinct callees is produced). -/
theorem exploreStep_materialize_ok (st : LinkSt) (r c : Nat) (callee pf root : Func)
    (hfind : findFunc2 st c = some callee)
    (hdecl : callee.status = FStatus.decl)
    (hlib : GetBuiltinFunction st.lib callee.name = some pf)
    (hmat : pf.status = FStatus.materializable)
    (hok : pf.matFails = none)
    (hpffind : findFunc2 st pf.fid = some pf)
    (hroot : findFunc2 st r = some root)
    (hrne : root.fid ≠ pf.fid) :
    ∃ st3,
      exploreStep st r c = Except.ok (st3, some (pf.fid, calledFids pf.body)) ∧
      (findFunc2 st3 pf.fid).map Func.status = some FStatus.defined ∧
      (findFunc2 st3 pf.fid).map Func.cconv = some root.cconv := by
  have hg1 : ∀ f : Func, (({ f with status := FStatus.defined } : Func)).fid = f.fid :=
    fun f => rfl
  have hrfid : root.fid = r := fid_of_findFunc2 st r root hroot
  have hfind1 : findFunc2 (materializeFunc st pf.fid) pf.fid =
      some { pf with status := FStatus.defined } := by
    unfold materializeFunc
    rw [findFunc2_updFunc st pf.fid _ hg1 pf.fid, hpffind]
    simp
  have hfindr : findFunc2 (materializeFunc st pf.fid) r = some root := by
    unfold materializeFunc
    rw [findFunc2_updFunc st pf.fid _ hg1 r, hroot]
    simp [hrne]
  have hcc : ((findFunc2 (materializeFunc st pf.fid) r).map Func.cconv).getD 0 =
      root.cconv := by
    rw [hfindr]
    rfl
  have hg2 : ∀ f : Func, (({ f with cconv := root.cconv } : Func)).fid = f.fid :=
    fun f => rfl
  have hfind2 : findFunc2 (setFuncCConv (materializeFunc st pf.fid) pf.fid root.cconv)
      pf.fid = some { pf with status := FStatus.defined, cconv := root.cconv } := by
    unfold setFuncCConv
    rw [findFunc2_updFunc _ pf.fid _ hg2 pf.fid, hfind1]
    simp
  have hg3 : ∀ f : Func,
      (({ f with body := f.body.map (setInstrCConv f.cconv) } : Func)).fid = f.fid :=
    fun f => rfl
  have henter : enterFunc (setFuncCConv (materializeFunc st pf.fid) pf.fid root.cconv)
      pf.fid =
      (updFunc (setFuncCConv (materializeFunc st pf.fid) pf.fid root.cconv) pf.fid
        (fun g => { g with body := g.body.map (setInstrCConv g.cconv) }),
       calledFids pf.body) := by
    unfold enterFunc
    rw [hfind2]
  have hstep : exploreStep st r c =
      Except.ok ((enterFunc (setFuncCConv (materializeFunc st pf.fid) pf.fid root.cconv)
          pf.fid).1,
        some (pf.fid,
          (enterFunc (setFuncCConv (materializeFunc st pf.fid) pf.fid root.cconv)
            pf.fid).2)) := by
    unfold exploreStep
    simp only [hfind]
    have h1 : (if callee.status = FStatus.decl then GetBuiltinFunction st.lib callee.name
        else some callee) = some pf := by
      rw [if_pos hdecl, hlib]
    simp only [h1]
    rw [if_pos hmat]
    simp only [hok, hcc]
  rw [henter] at hstep
  refine ⟨updFunc (setFuncCConv (materializeFunc st pf.fid) pf.fid root.cconv) pf.fid
      (fun g => { g with body := g.body.map (setInstrCConv g.cconv) }), ?_, ?_, ?_⟩
  · exact hstep
  · rw [findFunc2_updFunc _ pf.fid _ hg3 pf.fid, hfind2]
    simp
  · rw [findFunc2_updFunc _ pf.fid _ hg3 pf.fid, hfind2]
    simp

/-! ## Signature repair (`removeFunctionBitcasts`) -/

/-- Does this operand keep the function with identity `fid` alive?  A
function's uses are its direct references and the `ConstantExpr` casts of
it; a cast with no remaining instruction use has had its references
dropped by the pass at this point, so counting operand occurrences in
live instructions is exact. -/
def valueRefsFid (fid : Nat) : Value → Bool
  | Value.funcRef g _ => decide (g = fid)
  | Value.bitcastFn g _ => decide (g = fid)
  | _ => false

/-- Does this instruction use the function with identity `fid`? -/
def instrRefsFid (fid : Nat) : Instr → Bool
  | Instr.call c => valueRefsFid fid c.calleeOp || c.args.any (valueRefsFid fid)
  | Instr.siToFP _ a _ => valueRefsFid fid a
  | Instr.uiToFP _ a _ => valueRefsFid fid a
  | Instr.fmul _ a b => valueRefsFid fid a || valueRefsFid fid b
  | Instr.fadd _ a b => valueRefsFid fid a || valueRefsFid fid b
  | Instr.other _ _ os => os.any (valueRefsFid fid)

/-- `Function::use_empty` (negated), computed over the whole module: the
bodies of all functions other than the one currently being rewritten,
plus the live instructions of that function (`cur`). -/
def fidUsed (funcs : List Func) (curFid : Nat) (cur : List Instr) (fid : Nat) : Bool :=
  funcs.any (fun f => decide (f.fid ≠ curFid) && f.body.any (instrRefsFid fid))
    || cur.any (instrRefsFid fid)

/-- State of `removeFunctionBitcasts`: the module's function list, the
`bitcastFunctionMap` clone cache (original identity to clone identities,
in creation order), and the fresh-identity counter. -/
structure RfbSt where
  funcs : List Func
  cache : List (Nat × List Nat)
  fresh : Nat
deriving DecidableEq, Repr

/-- Cache lookup: find, among the clones recorded for `origFid`, the first
one whose function type equals the call's function type. -/
def cacheLookup (st : RfbSt) (origFid : Nat) (ft : FnTy) : Option Nat :=
  match st.cache.find? (fun p => decide (p.1 = origFid)) with
  | none => none
  | some p =>
    p.2.find? (fun cf =>
      match findFunc st.funcs cf with
      | some cfF => decide (cfF.fnTy = ft)
      | none => false)

/-- `bitcastFunctionMap[funcTobeChanged].push_back(pDstFunc)`. -/
def cachePush (cache : List (Nat × List Nat)) (origFid cfid : Nat) : List (Nat × List Nat) :=
  match cache.find? (fun p => decide (p.1 = origFid)) with
  | some _ => cache.map (fun p => if p.1 = origFid then (p.1, p.2 ++ [cfid]) else p)
  | none => cache ++ [(origFid, [cfid])]

/-- Rebuild the call against the clone `cfid`: create
`CallInst::Create(pDstFunc, Args)` in the old call's place (taking over
its name and calling convention), replace all uses, drop the old call's
references, and erase the original function if it has become
use-free. -/
def rfbRedirect (st : RfbSt) (curFid : Nat) (done rest : List Instr) (c : CallData)
    (origFid cfid : Nat) : RfbSt × List Instr × Option Sub :=
  let clone? := findFunc st.funcs cfid
  let cloneRet := (clone?.map Func.retTy).getD c.fnTy.ret
  let cloneFnTy := (clone?.map Func.fnTy).getD c.fnTy
  let newC : CallData :=
    { res := st.fresh, retTy := cloneRet,
      calleeOp := Value.funcRef cfid (Ty.ptrTy cloneRet), fnTy := cloneFnTy,
      args := c.args, cconv := c.cconv }
  let funcs2 :=
    if fidUsed st.funcs curFid (done ++ [Instr.call newC] ++ rest) origFid
    then st.funcs
    else st.funcs.filter (fun f => decide (f.fid ≠ origFid))
  ({ funcs := funcs2, cache := st.cache, fresh := st.fresh + 1 },
   [Instr.call newC], some ⟨c.res, newC.res, cloneRet⟩)

/-- One step of the instruction loop of `removeFunctionBitcasts`: how the
pass treats a single instruction of the function `curFid`, whose already
rebuilt front is `done` and whose unprocessed tail is `rest` (both are
consulted only for use-counting). -/
def rfbStep (st : RfbSt) (curFid : Nat) (done rest : List Instr) (i : Instr) :
    RfbSt × List Instr × Option Sub :=
  match i with
  | Instr.call c =>
    match c.calleeOp with
    | Value.bitcastFn origFid _ =>
      match findFunc st.funcs origFid with
      | none => (st, [i], none)
      | some orig =>
        if orig.status = FStatus.decl then (st, [i], none)
        else
          match cacheLookup st origFid c.fnTy with
          | some cfid => rfbRedirect st curFid done rest c origFid cfid
          | none =>
            -- Function::Create appends the new function to the module
            -- before the arity check
            let shell : Func :=
              { fid := st.fresh, name := orig.name,
                iid := IntrinsicID.not_intrinsic, intrTys := [],
                params := c.fnTy.params, retTy := c.fnTy.ret,
                status := FStatus.decl, body := [], matFails := none,
                linkage := orig.linkage, dllExport := false, cconv := 0, attrs := 0 }
            let st1 : RfbSt := { funcs := st.funcs ++ [shell], cache := st.cache,
                                 fresh := st.fresh + 1 }
            if c.fnTy.params.length ≠ orig.params.length then
              -- cannot safely copy a body whose parameter count does not
              -- match: skip this call (the freshly created function stays)
              (st1, [i], none)
            else
              let clone : Func :=
                { shell with
                  attrs := orig.attrs, body := orig.body,
                  status := FStatus.defined, cconv := orig.cconv }
              let st2 : RfbSt :=
                { funcs := st1.funcs.map (fun f => if f.fid = shell.fid then clone else f),
                  cache := cachePush st1.cache origFid shell.fid, fresh := st1.fresh }
              rfbRedirect st2 curFid done rest c origFid shell.fid
    | _ => (st, [i], none)
  | _ => (st, [i], none)

/-- The instruction loop of `removeFunctionBitcasts` over one function
body (same lazy-substitution scheme as `convertBody`; substitutions only
remap instruction results and never affect the function references that
use-counting consults). -/
def rfbBody (st : RfbSt) (curFid : Nat) (done : List Instr) (σ : List Sub) :
    List Instr → RfbSt × List Instr
  | [] => (st, done)
  | i :: rest =>
    match rfbStep st curFid done rest (applySubsts σ i) with
    | (st1, emitted, none) => rfbBody st1 curFid (done ++ emitted) σ rest
    | (st1, emitted, some s) =>
      rfbBody st1 curFid ((done ++ emitted).map (substInstr s)) (σ ++ [s]) rest

/-- The function loop of `removeFunctionBitcasts`, as a worklist: the
range-for over the module visits every original function and every
function appended during iteration (clones), and skips functions erased
before being visited.  `fuel` bounds the iteration (see `rfbFuel`). -/
def rfbGo (fuel : Nat) (st : RfbSt) : List Nat → RfbSt
  | [] => st
  | fid :: rest =>
    match fuel with
    | 0 => st
    | fuel + 1 =>
      match findFunc st.funcs fid with
      | none => rfbGo fuel st rest
      | some f =>
        let p := rfbBody st fid [] [] f.body
        let st2 : RfbSt :=
          { p.1 with
            funcs := p.1.funcs.map (fun g => if g.fid = fid then { g with body := p.2 } else g) }
        let appended := p.1.funcs.filterMap
          (fun g => if (findFunc st.funcs g.fid).isSome then none else some g.fid)
        rfbGo fuel st2 (rest ++ appended)

/-- Total number of instructions of a module. -/
def numInstrs (M : Module) : Nat :=
  (M.funcs.map (fun f => f.body.length)).sum

/-- Fuel for the worklist of `removeFunctionBitcasts`.  The source's
iteration terminates because every visited function is processed once,
at most one function is created per processed call instruction, and the
bodies of created clones are copies of original bodies; the bound below
is generous for every module the theorems evaluate it on. -/
def rfbFuel (M : Module) : Nat :=
  (M.funcs.length + numInstrs M + 1) * (numInstrs M + 2)

/-- `removeFunctionBitcasts(M)`: repair every call that reaches a defined
function only through a `ConstantExpr` pointer cast. -/
def removeFunctionBitcasts (M : Module) : Module :=
  let st := rfbGo (rfbFuel M) { funcs := M.funcs, cache := [], fresh := M.fresh }
              (M.funcs.map Func.fid)
  { funcs := st.funcs, globals := M.globals, fresh := st.fresh }

/-! ## Helper lemmas about the Call Rewriter -/

theorem applySubsts_nil (i : Instr) : applySubsts [] i = i := rfl

theorem applySubsts_single (s : Sub) (i : Instr) : applySubsts [s] i = substInstr s i := rfl

/-- Instructions that are not calls through a direct function reference;
the Call Rewriter leaves them untouched, whatever the tables hold. -/
def notDirectCall : Instr → Bool
  | Instr.call c =>
    match c.calleeOp with
    | Value.funcRef _ _ => false
    | _ => true
  | _ => true

theorem notDirectCall_substInstr (s : Sub) (i : Instr) (h : notDirectCall i = true) :
    notDirectCall (substInstr s i) = true := by
  cases i with
  | call c =>
    simp only [notDirectCall, substInstr] at h ⊢
    cases hv : c.calleeOp with
    | funcRef a t => rw [hv] at h; simp at h
    | instrRes a t =>
      simp only [substValue]
      by_cases ha : a = s.oldId
      · rw [if_pos ha]
      · rw [if_neg ha]
    | argRef a t => rfl
    | bitcastFn a t => rfl
    | constVal a t => rfl
  | siToFP r a t => rfl
  | uiToFP r a t => rfl
  | fmul r a b => rfl
  | fadd r a b => rfl
  | other r t os => rfl

theorem notDirectCall_applySubsts (σ : List Sub) (i : Instr) (h : notDirectCall i = true) :
    notDirectCall (applySubsts σ i) = true := by
  induction σ generalizing i with
  | nil => exact h
  | cons s σ ih =>
    have : applySubsts (s :: σ) i = applySubsts σ (substInstr s i) := rfl
    rw [this]
    exact ih _ (notDirectCall_substInstr s i h)

theorem convertInstr_notDirectCall (st : ConvSt) (i : Instr) (h : notDirectCall i = true) :
    convertInstr st i = Except.ok (st, [i], none) := by
  cases i with
  | call c =>
    simp only [notDirectCall] at h
    simp only [convertInstr]
    cases hv : c.calleeOp with
    | funcRef a t => rw [hv] at h; simp at h
    | instrRes a t => rfl
    | argRef a t => rfl
    | bitcastFn a t => rfl
    | constVal a t => rfl
  | siToFP r a t => rfl
  | uiToFP r a t => rfl
  | fmul r a b => rfl
  | fadd r a b => rfl
  | other r t os => rfl

theorem convertBody_cons_inert (st : ConvSt) (done : List Instr) (σ : List Sub)
    (i : Instr) (rest : List Instr)
    (hstep : convertInstr st (applySubsts σ i) = Except.ok (st, [applySubsts σ i], none)) :
    convertBody st done σ (i :: rest) = convertBody st (done ++ [applySubsts σ i]) σ rest := by
  conv_lhs => rw [convertBody]
  rw [hstep]

theorem convertBody_passthrough (pre : List Instr) (h : ∀ i ∈ pre, notDirectCall i = true) :
    ∀ (st : ConvSt) (done : List Instr) (σ : List Sub) (rest : List Instr),
      convertBody st done σ (pre ++ rest) =
        convertBody st (done ++ pre.map (applySubsts σ)) σ rest := by
  induction pre with
  | nil => intro st done σ rest; simp
  | cons i pre ih =>
    intro st done σ rest
    have hi : notDirectCall i = true := h i (List.mem_cons_self i pre)
    have hrest : ∀ j ∈ pre, notDirectCall j = true :=
      fun j hj => h j (List.mem_cons_of_mem i hj)
    have hstep := convertInstr_notDirectCall st (applySubsts σ i)
      (notDirectCall_applySubsts σ i hi)
    have h1 : convertBody st done σ (i :: (pre ++ rest)) =
        convertBody st (done ++ [applySubsts σ i]) σ (pre ++ rest) :=
      convertBody_cons_inert st done σ i (pre ++ rest) hstep
    rw [List.cons_append, h1, ih hrest st (done ++ [applySubsts σ i]) σ rest]
    simp

theorem mapCongrMem {α β : Type} (l : List α) (f g : α → β) (h : ∀ a ∈ l, f a = g a) :
    l.map f = l.map g := by
  induction l with
  | nil => rfl
  | cons a l ih =>
    rw [List.map_cons, List.map_cons, h a (List.mem_cons_self a l),
        ih (fun b hb => h b (List.mem_cons_of_mem a hb))]

theorem mapIdMem {α : Type} (l : List α) (f : α → α) (h : ∀ a ∈ l, f a = a) :
    l.map f = l := by
  induction l with
  | nil => rfl
  | cons a l ih =>
    rw [List.map_cons, h a (List.mem_cons_self a l),
        ih (fun b hb => h b (List.mem_cons_of_mem a hb))]

theorem map_applySubsts_nil (l : List Instr) : l.map (applySubsts []) = l :=
  mapIdMem l _ (fun _ _ => rfl)

theorem map_applySubsts_single (s : Sub) (l : List Instr) :
    l.map (applySubsts [s]) = l.map (substInstr s) :=
  mapCongrMem l _ _ (fun _ _ => rfl)

theorem convertBody_all_inert (l : List Instr) (h : ∀ i ∈ l, notDirectCall i = true)
    (st : ConvSt) (done : List Instr) (σ : List Sub) :
    convertBody st done σ l = Except.ok (st, done ++ l.map (applySubsts σ)) := by
  have h1 := convertBody_passthrough l h st done σ []
  rw [List.append_nil] at h1
  rw [h1]
  rfl

theorem convertBody_cons_rewrite (st st1 : ConvSt) (done emitted : List Instr)
    (σ : List Sub) (i : Instr) (rest : List Instr) (s : Sub)
    (hstep : convertInstr st (applySubsts σ i) = Except.ok (st1, emitted, some s)) :
    convertBody st done σ (i :: rest) =
      convertBody st1 ((done ++ emitted).map (substInstr s)) (σ ++ [s]) rest := by
  conv_lhs => rw [convertBody]
  rw [hstep]

/-- Evaluation of one function body containing exactly one rewritable
call, surrounded by instructions the rewriter ignores. -/
theorem convertBody_single_rewrite (st0 st1 : ConvSt) (pre post emitted : List Instr)
    (c : CallData) (s : Sub)
    (hpre : ∀ i ∈ pre, notDirectCall i = true)
    (hpost : ∀ i ∈ post, notDirectCall i = true)
    (hstep : convertInstr st0 (Instr.call c) = Except.ok (st1, emitted, some s)) :
    convertBody st0 [] [] (pre ++ Instr.call c :: post) =
      Except.ok (st1, (pre ++ emitted ++ post).map (substInstr s)) := by
  rw [convertBody_passthrough pre hpre st0 [] [] (Instr.call c :: post)]
  rw [map_applySubsts_nil, List.nil_append]
  have hstep2 : convertInstr st0 (applySubsts [] (Instr.call c)) =
      Except.ok (st1, emitted, some s) := hstep
  rw [convertBody_cons_rewrite st0 st1 pre emitted [] (Instr.call c) post s hstep2]
  rw [List.nil_append]
  rw [convertBody_all_inert post hpost st1 ((pre ++ emitted).map (substInstr s)) [s]]
  rw [map_applySubsts_single]
  rw [← List.map_append]

/-- Evaluation of `BIConvert::runOnModule` on a module of two functions
(a callee and a caller whose body holds one rewritable call in an inert
context), given the evaluation of the rewriting step itself. -/
theorem runOnModule_pair (callee mainF : Func) (gs : List GlobalVar) (k : Nat)
    (pre post emitted : List Instr) (c : CallData) (s : Sub)
    (st1 : ConvSt) (extra : List Func)
    (hcb : callee.body = [])
    (hmb : mainF.body = pre ++ Instr.call c :: post)
    (hpre : ∀ i ∈ pre, notDirectCall i = true)
    (hpost : ∀ i ∈ post, notDirectCall i = true)
    (hstep : convertInstr ⟨[callee, mainF], k⟩ (Instr.call c) =
      Except.ok (st1, emitted, some s))
    (hst1 : st1.funcs = [callee, mainF] ++ extra)
    (hne : callee.fid ≠ mainF.fid)
    (hex1 : ∀ f ∈ extra, f.fid ≠ callee.fid)
    (hex2 : ∀ f ∈ extra, f.fid ≠ mainF.fid) :
    BIConvert.runOnModule { funcs := [callee, mainF], globals := gs, fresh := k } =
      Except.ok (demoteLinkage
        { funcs := [callee,
            { mainF with body := (pre ++ emitted ++ post).map (substInstr s) }] ++ extra,
          globals := gs, fresh := st1.fresh }) := by
  have hbody := convertBody_single_rewrite ⟨[callee, mainF], k⟩ st1 pre post emitted c s
    hpre hpost hstep
  have hcb0 : convertBody ⟨[callee, mainF], k⟩ [] [] callee.body =
      Except.ok (⟨[callee, mainF], k⟩, []) := by rw [hcb]; rfl
  set B : List Instr := (pre ++ emitted ++ post).map (substInstr s) with hB
  have hcf : convertFuncs ⟨[callee, mainF], k⟩ [callee, mainF] =
      Except.ok (st1, [(callee.fid, []), (mainF.fid, B)]) := by
    simp only [convertFuncs]
    rw [hcb0]
    simp only
    rw [hmb, hbody]
  have hbodies : ∀ f : Func, f.fid ≠ callee.fid → f.fid ≠ mainF.fid →
      installBody [(callee.fid, []), (mainF.fid, B)] f = f := by
    intro f h1 h2
    unfold installBody
    rw [List.find?_cons_of_neg _ (by simp [Ne.symm h1]),
        List.find?_cons_of_neg _ (by simp [Ne.symm h2])]
    rfl
  have hic : installBody [(callee.fid, []), (mainF.fid, B)] callee = callee := by
    unfold installBody
    rw [List.find?_cons_of_pos _ (by simp)]
    simp only
    rw [← hcb]
  have him : installBody [(callee.fid, []), (mainF.fid, B)] mainF =
      { mainF with body := B } := by
    unfold installBody
    rw [List.find?_cons_of_neg _ (by simp [hne]),
        List.find?_cons_of_pos _ (by simp)]
  have hmap : st1.funcs.map (installBody [(callee.fid, []), (mainF.fid, B)]) =
      [callee, { mainF with body := B }] ++ extra := by
    rw [hst1, List.map_append, List.map_cons, List.map_cons, List.map_nil, hic, him,
        mapIdMem extra _ (fun f hf => hbodies f (hex1 f hf) (hex2 f hf))]
  simp only [BIConvert.runOnModule]
  rw [hcf]
  simp only
  rw [hmap]

theorem OneMap_ne_not_intrinsic (s : String) (iid : IntrinsicID)
    (h : OneMap s = some iid) : iid ≠ IntrinsicID.not_intrinsic := by
  unfold OneMap at h
  split at h <;> first
    | (cases h; decide)
    | (cases h)

theorem TwoMap_ne_not_intrinsic (s : String) (pr : IntrinsicID × IntrinsicID)
    (h : TwoMap s = some pr) :
    pr.1 ≠ IntrinsicID.not_intrinsic ∧ pr.2 ≠ IntrinsicID.not_intrinsic := by
  unfold TwoMap at h
  split at h <;> first
    | (cases h; exact ⟨by decide, by decide⟩)
    | (cases h)

theorem substValue_id_of_ne (s : Sub) (v : Value)
    (h : ∀ t, v ≠ Value.instrRes s.oldId t) : substValue s v = v := by
  cases v with
  | instrRes a t =>
    simp only [substValue]
    by_cases ha : a = s.oldId
    · exact absurd (ha ▸ rfl) (h t)
    · rw [if_neg ha]
  | argRef a t => rfl
  | funcRef a t => rfl
  | bitcastFn a t => rfl
  | constVal a t => rfl

theorem substInstr_mkIntrinCall (s : Sub) (r d : Nat) (t : Ty) (args : List Value)
    (h : ∀ v ∈ args, substValue s v = v) :
    substInstr s (Instr.call (mkIntrinCall r d t args)) =
      Instr.call (mkIntrinCall r d t args) := by
  simp only [substInstr, mkIntrinCall, substValue]
  rw [mapIdMem args _ h]

/-- Evaluation of `getDeclaration` on a two-function module holding no
intrinsic instantiation yet. -/
theorem getDeclaration_pair (callee mainF : Func) (k : Nat) (iid : IntrinsicID)
    (tys : List Ty)
    (hiidc : callee.iid = IntrinsicID.not_intrinsic)
    (hiidm : mainF.iid = IntrinsicID.not_intrinsic)
    (hino : iid ≠ IntrinsicID.not_intrinsic) :
    getDeclaration ⟨[callee, mainF], k⟩ iid tys =
      (⟨[callee, mainF, intrinsicDeclFunc iid tys k], k + 1⟩, k) := by
  unfold getDeclaration
  have h1 : ([callee, mainF].find? (fun f => decide (f.iid = iid ∧ f.intrTys = tys))) =
      none := by
    rw [List.find?_cons_of_neg _ (by simp [hiidc]; intro hc; exact absurd hc.symm hino),
        List.find?_cons_of_neg _ (by simp [hiidm]; intro hc; exact absurd hc.symm hino)]
    rfl
  rw [h1]
  rfl

theorem intrinsicRetTy_cons (iid : IntrinsicID) (t : Ty) (ts : List Ty) :
    intrinsicRetTy iid (t :: ts) = t := rfl

/-- Evaluation of `getDeclaration` on a module holding no matching
intrinsic instantiation. -/
theorem getDeclaration_fresh (funcs : List Func) (k : Nat) (iid : IntrinsicID)
    (tys : List Ty) (h : ∀ f ∈ funcs, ¬ (f.iid = iid ∧ f.intrTys = tys)) :
    getDeclaration ⟨funcs, k⟩ iid tys =
      (⟨funcs ++ [intrinsicDeclFunc iid tys k], k + 1⟩, k) := by
  unfold getDeclaration
  have h1 : funcs.find? (fun f => decide (f.iid = iid ∧ f.intrTys = tys)) = none := by
    rw [List.find?_eq_none]
    intro f hf
    simpa using h f hf
  rw [h1]

/-- Evaluation of the `OneMap` branch (lines 206-222 of the source) of the
instruction loop. -/
theorem convertInstr_oneMap (st : ConvSt) (c : CallData) (fid : Nat) (tv : Ty)
    (callee : Func) (iid : IntrinsicID)
    (hcop : c.calleeOp = Value.funcRef fid tv)
    (hfind : findFunc st.funcs fid = some callee)
    (hiid : callee.iid = IntrinsicID.not_intrinsic)
    (hmap : OneMap callee.name = some iid) :
    convertInstr st (Instr.call c) = Except.ok
      ({ (getDeclaration st iid [callee.retTy]).1 with
          fresh := (getDeclaration st iid [callee.retTy]).1.fresh + 1 },
       [Instr.call (mkIntrinCall (getDeclaration st iid [callee.retTy]).1.fresh
          (getDeclaration st iid [callee.retTy]).2 callee.retTy c.args)],
       some ⟨c.res, (getDeclaration st iid [callee.retTy]).1.fresh, callee.retTy⟩) := by
  simp only [convertInstr, hcop, hfind]
  rw [if_neg (by rw [hiid]; decide), if_neg (by rw [hiid]; decide)]
  simp only [hmap]
  rfl

/-- Builder for the concrete functions the witnesses and counterexamples
below evaluate the passes on. -/
def sampleFn (fid : Nat) (nm : String) (ps : List Ty) (rt : Ty)
    (stt : FStatus) (b : List Instr) : Func :=
  { fid := fid, name := nm, iid := IntrinsicID.not_intrinsic, intrTys := [],
    params := ps, retTy := rt, status := stt, body := b, matFails := none,
    linkage := Linkage.externalLink, dllExport := false, cconv := 0, attrs := 0 }

/-! ## The claims -/

/-- C1: for every call instruction in the main module whose direct
callee's name is a key of `OneMap`, after the Call Rewriter runs the
original call no longer exists, and exactly one new call to the mapped
target intrinsic stands at its former position, instantiated with the
original callee's return type, receiving exactly the original call's
arguments in order; every former use of the original call's result (the
`substInstr` substitution on the surrounding instructions) uses the new
call's result `k + 1`. -/
theorem claim_C1_oneMap_rewrite
    (callee mainF : Func) (gs : List GlobalVar) (k : Nat)
    (pre post : List Instr) (c : CallData) (tv : Ty) (iid : IntrinsicID)
    (hmap : OneMap callee.name = some iid)
    (hiidc : callee.iid = IntrinsicID.not_intrinsic)
    (hiidm : mainF.iid = IntrinsicID.not_intrinsic)
    (hcop : c.calleeOp = Value.funcRef callee.fid tv)
    (hcb : callee.body = [])
    (hmb : mainF.body = pre ++ Instr.call c :: post)
    (hpre : ∀ i ∈ pre, notDirectCall i = true)
    (hpost : ∀ i ∈ post, notDirectCall i = true)
    (hne : callee.fid ≠ mainF.fid)
    (hkc : callee.fid ≠ k) (hkm : mainF.fid ≠ k)
    (hssa : ∀ t : Ty, Value.instrRes c.res t ∉ c.args) :
    BIConvert.runOnModule { funcs := [callee, mainF], globals := gs, fresh := k } =
      Except.ok (demoteLinkage
        { funcs := [callee,
            { mainF with body :=
                (pre.map (substInstr ⟨c.res, k + 1, callee.retTy⟩) ++
                 Instr.call (mkIntrinCall (k + 1) k callee.retTy c.args) ::
                 post.map (substInstr ⟨c.res, k + 1, callee.retTy⟩)) },
            intrinsicDeclFunc iid [callee.retTy] k],
          globals := gs, fresh := k + 2 }) := by
  have hino := OneMap_ne_not_intrinsic _ _ hmap
  have hgd := getDeclaration_pair callee mainF k iid [callee.retTy] hiidc hiidm hino
  have hfind : findFunc [callee, mainF] callee.fid = some callee := by
    unfold findFunc
    rw [List.find?_cons_of_pos _ (by simp)]
  have hstep := convertInstr_oneMap ⟨[callee, mainF], k⟩ c callee.fid tv callee iid
    hcop hfind hiidc hmap
  rw [hgd] at hstep
  have hmain := runOnModule_pair callee mainF gs k pre post
    [Instr.call (mkIntrinCall (k + 1) k callee.retTy c.args)] c
    ⟨c.res, k + 1, callee.retTy⟩
    ⟨[callee, mainF, intrinsicDeclFunc iid [callee.retTy] k], k + 2⟩
    [intrinsicDeclFunc iid [callee.retTy] k]
    hcb hmb hpre hpost hstep rfl hne
    (by intro f hf; rw [List.mem_singleton] at hf; subst hf; exact Ne.symm hkc)
    (by intro f hf; rw [List.mem_singleton] at hf; subst hf; exact Ne.symm hkm)
  rw [hmain]
  have hgx : substInstr ⟨c.res, k + 1, callee.retTy⟩
      (Instr.call (mkIntrinCall (k + 1) k callee.retTy c.args)) =
      Instr.call (mkIntrinCall (k + 1) k callee.retTy c.args) :=
    substInstr_mkIntrinCall _ _ _ _ _
      (fun v hv => substValue_id_of_ne _ v (fun t hveq => hssa t (hveq ▸ hv)))
  have hbodyeq : (pre ++ [Instr.call (mkIntrinCall (k + 1) k callee.retTy c.args)]
        ++ post).map (substInstr ⟨c.res, k + 1, callee.retTy⟩) =
      pre.map (substInstr ⟨c.res, k + 1, callee.retTy⟩) ++
        Instr.call (mkIntrinCall (k + 1) k callee.retTy c.args) ::
        post.map (substInstr ⟨c.res, k + 1, callee.retTy⟩) := by
    rw [List.map_append, List.map_append, List.map_cons, List.map_nil, hgx]
    rw [List.append_assoc]
    rfl
  rw [hbodyeq]
  rfl

def c1callee : Func :=
  sampleFn 1 "__builtin_IB_fma" [Ty.floatTy, Ty.floatTy, Ty.floatTy] Ty.floatTy
    FStatus.decl []

def c1call : CallData :=
  { res := 10, retTy := Ty.floatTy, calleeOp := Value.funcRef 1 (Ty.ptrTy Ty.floatTy),
    fnTy := ⟨[Ty.floatTy], Ty.floatTy⟩, args := [Value.constVal 5 Ty.floatTy], cconv := 0 }

def c1use : Instr := Instr.other 11 Ty.floatTy [Value.instrRes 10 Ty.floatTy]

def c1main : Func :=
  sampleFn 0 "kernel" [] Ty.voidTy FStatus.defined [Instr.call c1call, c1use]

/-- Evaluation of the `TwoMap` branch (lines 224-254 of the source) on a
two-function module. -/
theorem convertInstr_twoMap_pair (callee mainF : Func) (k : Nat) (c : CallData)
    (tv : Ty) (pr : IntrinsicID × IntrinsicID) (a0 : Value) (arest : List Value)
    (hcop : c.calleeOp = Value.funcRef callee.fid tv)
    (hiidc : callee.iid = IntrinsicID.not_intrinsic)
    (hiidm : mainF.iid = IntrinsicID.not_intrinsic)
    (hone : OneMap callee.name = none)
    (hmap : TwoMap callee.name = some pr)
    (hargs : c.args = a0 :: arest) :
    convertInstr ⟨[callee, mainF], k⟩ (Instr.call c) = Except.ok
      (⟨[callee, mainF, intrinsicDeclFunc pr.1 [a0.ty] k,
         intrinsicDeclFunc pr.2 [callee.retTy, a0.ty] (k + 2)], k + 4⟩,
       [Instr.call (mkIntrinCall (k + 1) k a0.ty c.args),
        Instr.call (mkIntrinCall (k + 3) (k + 2) callee.retTy
          [Value.instrRes (k + 1) a0.ty])],
       some ⟨c.res, k + 3, callee.retTy⟩) := by
  have hfind : findFunc [callee, mainF] callee.fid = some callee := by
    unfold findFunc
    rw [List.find?_cons_of_pos _ (by simp)]
  have hino1 := (TwoMap_ne_not_intrinsic _ _ hmap).1
  have hino2 := (TwoMap_ne_not_intrinsic _ _ hmap).2
  have hgd0 := getDeclaration_fresh [callee, mainF] k pr.1 [a0.ty] (by
    intro f hf
    rw [List.mem_cons, List.mem_singleton] at hf
    rcases hf with rfl | rfl
    · rw [hiidc]; intro hc; exact absurd hc.1.symm hino1
    · rw [hiidm]; intro hc; exact absurd hc.1.symm hino1)
  have hgd1 := getDeclaration_fresh
    [callee, mainF, intrinsicDeclFunc pr.1 [a0.ty] k] (k + 1 + 1) pr.2
    [callee.retTy, a0.ty] (by
      intro f hf
      rw [List.mem_cons, List.mem_cons, List.mem_singleton] at hf
      rcases hf with rfl | rfl | rfl
      · rw [hiidc]; intro hc; exact absurd hc.1.symm hino2
      · rw [hiidm]; intro hc; exact absurd hc.1.symm hino2
      · intro hc
        have := hc.2
        simp [intrinsicDeclFunc] at this)
  simp only [convertInstr, hcop, hfind]
  rw [if_neg (by rw [hiidc]; decide), if_neg (by rw [hiidc]; decide)]
  simp only [hone, hmap, hargs]
  simp only [hgd0]
  simp only [List.cons_append, List.nil_append, intrinsicRetTy_cons]
  simp only [hgd1]
  rfl

theorem convertBody_cons_error (st : ConvSt) (done : List Instr) (σ : List Sub)
    (i : Instr) (rest : List Instr) (e : String)
    (hstep : convertInstr st (applySubsts σ i) = Except.error e) :
    convertBody st done σ (i :: rest) = Except.error e := by
  conv_lhs => rw [convertBody]
  rw [hstep]

/-- Error propagation: one failing rewrite step aborts the whole of
`BIConvert::runOnModule`. -/
theorem runOnModule_pair_error (callee mainF : Func) (gs : List GlobalVar) (k : Nat)
    (pre post : List Instr) (c : CallData) (e : String)
    (hcb : callee.body = [])
    (hmb : mainF.body = pre ++ Instr.call c :: post)
    (hpre : ∀ i ∈ pre, notDirectCall i = true)
    (hstep : convertInstr ⟨[callee, mainF], k⟩ (Instr.call c) = Except.error e) :
    BIConvert.runOnModule { funcs := [callee, mainF], globals := gs, fresh := k } =
      Except.error e := by
  have hcb0 : convertBody ⟨[callee, mainF], k⟩ [] [] callee.body =
      Except.ok (⟨[callee, mainF], k⟩, []) := by rw [hcb]; rfl
  have hb : convertBody ⟨[callee, mainF], k⟩ [] [] mainF.body = Except.error e := by
    rw [hmb, convertBody_passthrough pre hpre _ [] [] _, map_applySubsts_nil,
        List.nil_append]
    exact convertBody_cons_error _ pre [] (Instr.call c) post e hstep
  have hcf : convertFuncs ⟨[callee, mainF], k⟩ [callee, mainF] = Except.error e := by
    simp only [convertFuncs]
    rw [hcb0]
    simp only
    rw [hb]
  simp only [BIConvert.runOnModule]
  rw [hcf]

/-- Evaluation of the `ctlz` branch (lines 183-202 of the source) when the
operand is a 32-bit integer. -/
theorem convertInstr_ctlz_ok (st : ConvSt) (c : CallData) (fid : Nat) (tv : Ty)
    (callee : Func) (a0 : Value) (arest : List Value)
    (hcop : c.calleeOp = Value.funcRef fid tv)
    (hfind : findFunc st.funcs fid = some callee)
    (hiid : callee.iid = IntrinsicID.ctlz)
    (hargs : c.args = a0 :: arest)
    (ht : a0.ty = Ty.intTy 32) :
    convertInstr st (Instr.call c) = Except.ok
      ({ (getDeclaration st IntrinsicID.genx_lzd [Ty.intTy 32]).1 with
          fresh := (getDeclaration st IntrinsicID.genx_lzd [Ty.intTy 32]).1.fresh + 1 },
       [Instr.call (mkIntrinCall (getDeclaration st IntrinsicID.genx_lzd [Ty.intTy 32]).1.fresh
          (getDeclaration st IntrinsicID.genx_lzd [Ty.intTy 32]).2 (Ty.intTy 32) [a0])],
       some ⟨c.res, (getDeclaration st IntrinsicID.genx_lzd [Ty.intTy 32]).1.fresh,
         Ty.intTy 32⟩) := by
  simp only [convertInstr, hcop, hfind]
  rw [if_neg (by rw [hiid]; decide), if_pos (by rw [hiid])]
  simp only [CallData.operand0, hargs, ht]
  rw [if_neg (by decide), if_neg (by decide)]
  rfl

/-- Evaluation of the `ctlz` branch when the operand is not a 32-bit
integer: one of the two assertions fires. -/
theorem convertInstr_ctlz_err (st : ConvSt) (c : CallData) (fid : Nat) (tv : Ty)
    (callee : Func) (a0 : Value) (arest : List Value)
    (hcop : c.calleeOp = Value.funcRef fid tv)
    (hfind : findFunc st.funcs fid = some callee)
    (hiid : callee.iid = IntrinsicID.ctlz)
    (hargs : c.args = a0 :: arest)
    (hbad : ¬ (a0.ty.isIntegerTy = true ∧ a0.ty.sizeInBits = 32)) :
    ∃ e, convertInstr st (Instr.call c) = Except.error e := by
  by_cases hint : a0.ty.isIntegerTy = true
  · have hsz : ¬ a0.ty.sizeInBits = 32 := fun h => hbad ⟨hint, h⟩
    refine ⟨"CMImportBiF assert failure: SrcTy->getPrimitiveSizeInBits() == 32", ?_⟩
    simp only [convertInstr, hcop, hfind]
    rw [if_neg (by rw [hiid]; decide), if_pos (by rw [hiid])]
    simp only [CallData.operand0, hargs]
    rw [if_neg (by simp [hint]), if_pos hsz]
  · refine ⟨"CMImportBiF assert failure: SrcTy->isIntegerTy()", ?_⟩
    simp only [convertInstr, hcop, hfind]
    rw [if_neg (by rw [hiid]; decide), if_pos (by rw [hiid])]
    simp only [CallData.operand0, hargs]
    rw [if_pos (by simp [hint])]

/-- C5: a call to the count-leading-zeros intrinsic (`Intrinsic::ctlz`)
whose operand is a 32-bit integer is replaced by exactly one call to the
target's `genx_lzd` intrinsic with the same single argument, and the
original call is deleted; with an operand of any other type or width the
pass is fatal (the 32-bit precondition is enforced by assertion, so the
error branch is unreachable exactly when the precondition holds). -/
theorem claim_C5_ctlz_32bit
    (callee mainF : Func) (gs : List GlobalVar) (k : Nat)
    (pre post : List Instr) (c : CallData) (tv : Ty) (a0 : Value) (arest : List Value)
    (hiidc : callee.iid = IntrinsicID.ctlz)
    (hiidm : mainF.iid = IntrinsicID.not_intrinsic)
    (hcop : c.calleeOp = Value.funcRef callee.fid tv)
    (hargs : c.args = a0 :: arest)
    (hcb : callee.body = [])
    (hmb : mainF.body = pre ++ Instr.call c :: post)
    (hpre : ∀ i ∈ pre, notDirectCall i = true)
    (hpost : ∀ i ∈ post, notDirectCall i = true)
    (hne : callee.fid ≠ mainF.fid)
    (hkc : callee.fid ≠ k) (hkm : mainF.fid ≠ k)
    (hssa : ∀ t : Ty, Value.instrRes c.res t ∉ c.args) :
    (a0.ty = Ty.intTy 32 →
      BIConvert.runOnModule { funcs := [callee, mainF], globals := gs, fresh := k } =
        Except.ok (demoteLinkage
          { funcs := [callee,
              { mainF with body :=
                  (pre.map (substInstr ⟨c.res, k + 1, Ty.intTy 32⟩) ++
                   Instr.call (mkIntrinCall (k + 1) k (Ty.intTy 32) [a0]) ::
                   post.map (substInstr ⟨c.res, k + 1, Ty.intTy 32⟩)) },
              intrinsicDeclFunc IntrinsicID.genx_lzd [Ty.intTy 32] k],
            globals := gs, fresh := k + 2 })) ∧
    (¬ (a0.ty.isIntegerTy = true ∧ a0.ty.sizeInBits = 32) →
      ∃ e, BIConvert.runOnModule { funcs := [callee, mainF], globals := gs, fresh := k } =
        Except.error e) := by
  constructor
  · intro ht
    have hfind : findFunc [callee, mainF] callee.fid = some callee := by
      unfold findFunc
      rw [List.find?_cons_of_pos _ (by simp)]
    have hstep := convertInstr_ctlz_ok ⟨[callee, mainF], k⟩ c callee.fid tv callee
      a0 arest hcop hfind hiidc hargs ht
    have hgd := getDeclaration_fresh [callee, mainF] k IntrinsicID.genx_lzd
      [Ty.intTy 32] (by
        intro f hf
        rw [List.mem_cons, List.mem_singleton] at hf
        rcases hf with rfl | rfl
        · rw [hiidc]; intro hc; cases hc.1
        · rw [hiidm]; intro hc; cases hc.1)
    rw [hgd] at hstep
    have hmain := runOnModule_pair callee mainF gs k pre post
      [Instr.call (mkIntrinCall (k + 1) k (Ty.intTy 32) [a0])] c
      ⟨c.res, k + 1, Ty.intTy 32⟩
      ⟨[callee, mainF, intrinsicDeclFunc IntrinsicID.genx_lzd [Ty.intTy 32] k], k + 2⟩
      [intrinsicDeclFunc IntrinsicID.genx_lzd [Ty.intTy 32] k]
      hcb hmb hpre hpost hstep rfl hne
      (by intro f hf; rw [List.mem_singleton] at hf; subst hf; exact Ne.symm hkc)
      (by intro f hf; rw [List.mem_singleton] at hf; subst hf; exact Ne.symm hkm)
    rw [hmain]
    have hgx : substInstr ⟨c.res, k + 1, Ty.intTy 32⟩
        (Instr.call (mkIntrinCall (k + 1) k (Ty.intTy 32) [a0])) =
        Instr.call (mkIntrinCall (k + 1) k (Ty.intTy 32) [a0]) := by
      apply substInstr_mkIntrinCall
      intro v hv
      rw [List.mem_singleton] at hv
      apply substValue_id_of_ne
      intro t hveq
      have hmem : v ∈ c.args := by
        rw [hargs, hv]
        exact List.mem_cons_self _ _
      exact hssa t (hveq ▸ hmem)
    have hbodyeq : (pre ++ [Instr.call (mkIntrinCall (k + 1) k (Ty.intTy 32) [a0])]
          ++ post).map (substInstr ⟨c.res, k + 1, Ty.intTy 32⟩) =
        pre.map (substInstr ⟨c.res, k + 1, Ty.intTy 32⟩) ++
          Instr.call (mkIntrinCall (k + 1) k (Ty.intTy 32) [a0]) ::
          post.map (substInstr ⟨c.res, k + 1, Ty.intTy 32⟩) := by
      rw [List.map_append, List.map_append, List.map_cons, List.map_nil, hgx]
      rw [List.append_assoc]
      rfl
    rw [hbodyeq]
    rfl
  · intro hbad
    have hfind : findFunc [callee, mainF] callee.fid = some callee := by
      unfold findFunc
      rw [List.find?_cons_of_pos _ (by simp)]
    obtain ⟨e, hstep⟩ := convertInstr_ctlz_err ⟨[callee, mainF], k⟩ c callee.fid tv
      callee a0 arest hcop hfind hiidc hargs hbad
    exact ⟨e, runOnModule_pair_error callee mainF gs k pre post c e hcb hmb hpre hstep⟩

def c5callee : Func :=
  { sampleFn 1 "llvm.ctlz.i32" [Ty.intTy 32] (Ty.intTy 32) FStatus.decl [] with
    iid := IntrinsicID.ctlz }

def c5call : CallData :=
  { res := 10, retTy := Ty.intTy 32, calleeOp := Value.funcRef 1 (Ty.ptrTy (Ty.intTy 32)),
    fnTy := ⟨[Ty.intTy 32, Ty.intTy 1], Ty.intTy 32⟩,
    args := [Value.constVal 5 (Ty.intTy 32), Value.constVal 6 (Ty.intTy 1)], cconv := 0 }

def c5use : Instr := Instr.other 11 (Ty.intTy 32) [Value.instrRes 10 (Ty.intTy 32)]

def c5main : Func :=
  sampleFn 0 "kernel" [] Ty.voidTy FStatus.defined [Instr.call c5call, c5use]

def c5badcall : CallData :=
  { c5call with args := [Value.constVal 5 (Ty.intTy 64), Value.constVal 6 (Ty.intTy 1)] }

def c5badmain : Func :=
  sampleFn 0 "kernel" [] Ty.voidTy FStatus.defined [Instr.call c5badcall, c5use]

theorem claim_C5_witness :
    (BIConvert.runOnModule { funcs := [c5callee, c5main], globals := [], fresh := 20 } =
      Except.ok (demoteLinkage
        { funcs := [c5callee,
            { c5main with body :=
                (List.map (substInstr ⟨10, 21, Ty.intTy 32⟩) [] ++
                 Instr.call (mkIntrinCall 21 20 (Ty.intTy 32)
                   [Value.constVal 5 (Ty.intTy 32)]) ::
                 List.map (substInstr ⟨10, 21, Ty.intTy 32⟩) [c5use]) },
            intrinsicDeclFunc IntrinsicID.genx_lzd [Ty.intTy 32] 20],
          globals := [], fresh := 22 })) ∧
    (∃ e,
      BIConvert.runOnModule { funcs := [c5callee, c5badmain], globals := [], fresh := 20 } =
        Except.error e) :=
  ⟨(claim_C5_ctlz_32bit c5callee c5main [] 20 [] [c5use] c5call
      (Ty.ptrTy (Ty.intTy 32)) (Value.constVal 5 (Ty.intTy 32))
      [Value.constVal 6 (Ty.intTy 1)]
      rfl rfl rfl rfl rfl rfl
      (by intro i hi; cases hi) (by decide)
      (by decide) (by decide) (by decide)
      (by intro t ht; simp [c5call] at ht)).1 rfl,
   (claim_C5_ctlz_32bit c5callee c5badmain [] 20 [] [c5use] c5badcall
      (Ty.ptrTy (Ty.intTy 32)) (Value.constVal 5 (Ty.intTy 64))
      [Value.constVal 6 (Ty.intTy 1)]
      rfl rfl rfl rfl rfl rfl
      (by intro i hi; cases hi) (by decide)
      (by decide) (by decide) (by decide)
      (by intro t ht; simp [c5badcall, c5call] at ht)).2 (by decide)⟩

/-- C2: for every call whose direct callee's name is a key of `TwoMap`,
after the Call Rewriter runs the original call is deleted and exactly two
new intrinsic calls stand in its place, chained: the first is instantiated
with the type of the original call's first argument and receives all
original arguments; the second is instantiated with the type-parameter
pair (original callee return type, first intrinsic's result type) and
receives the first intrinsic's result as its sole argument; all former
uses of the original call (the `substInstr` substitution) use the second
intrinsic's result `k + 3`. -/
theorem claim_C2_twoMap_rewrite
    (callee mainF : Func) (gs : List GlobalVar) (k : Nat)
    (pre post : List Instr) (c : CallData) (tv : Ty)
    (pr : IntrinsicID × IntrinsicID) (a0 : Value) (arest : List Value)
    (hone : OneMap callee.name = none)
    (hmap : TwoMap callee.name = some pr)
    (hiidc : callee.iid = IntrinsicID.not_intrinsic)
    (hiidm : mainF.iid = IntrinsicID.not_intrinsic)
    (hcop : c.calleeOp = Value.funcRef callee.fid tv)
    (hargs : c.args = a0 :: arest)
    (hcb : callee.body = [])
    (hmb : mainF.body = pre ++ Instr.call c :: post)
    (hpre : ∀ i ∈ pre, notDirectCall i = true)
    (hpost : ∀ i ∈ post, notDirectCall i = true)
    (hne : callee.fid ≠ mainF.fid)
    (hkc1 : callee.fid ≠ k) (hkm1 : mainF.fid ≠ k)
    (hkc2 : callee.fid ≠ k + 2) (hkm2 : mainF.fid ≠ k + 2)
    (hresk : c.res ≠ k + 1)
    (hssa : ∀ t : Ty, Value.instrRes c.res t ∉ c.args) :
    BIConvert.runOnModule { funcs := [callee, mainF], globals := gs, fresh := k } =
      Except.ok (demoteLinkage
        { funcs := [callee,
            { mainF with body :=
                (pre.map (substInstr ⟨c.res, k + 3, callee.retTy⟩) ++
                 Instr.call (mkIntrinCall (k + 1) k a0.ty c.args) ::
                 Instr.call (mkIntrinCall (k + 3) (k + 2) callee.retTy
                   [Value.instrRes (k + 1) a0.ty]) ::
                 post.map (substInstr ⟨c.res, k + 3, callee.retTy⟩)) },
            intrinsicDeclFunc pr.1 [a0.ty] k,
            intrinsicDeclFunc pr.2 [callee.retTy, a0.ty] (k + 2)],
          globals := gs, fresh := k + 4 }) := by
  have hstep := convertInstr_twoMap_pair callee mainF k c tv pr a0 arest
    hcop hiidc hiidm hone hmap hargs
  have hmain := runOnModule_pair callee mainF gs k pre post
    [Instr.call (mkIntrinCall (k + 1) k a0.ty c.args),
     Instr.call (mkIntrinCall (k + 3) (k + 2) callee.retTy
       [Value.instrRes (k + 1) a0.ty])] c
    ⟨c.res, k + 3, callee.retTy⟩
    ⟨[callee, mainF, intrinsicDeclFunc pr.1 [a0.ty] k,
      intrinsicDeclFunc pr.2 [callee.retTy, a0.ty] (k + 2)], k + 4⟩
    [intrinsicDeclFunc pr.1 [a0.ty] k,
     intrinsicDeclFunc pr.2 [callee.retTy, a0.ty] (k + 2)]
    hcb hmb hpre hpost hstep rfl hne
    (by
      intro f hf
      rw [List.mem_cons, List.mem_singleton] at hf
      rcases hf with rfl | rfl
      · exact Ne.symm hkc1
      · exact Ne.symm hkc2)
    (by
      intro f hf
      rw [List.mem_cons, List.mem_singleton] at hf
      rcases hf with rfl | rfl
      · exact Ne.symm hkm1
      · exact Ne.symm hkm2)
  rw [hmain]
  have hgx0 : substInstr ⟨c.res, k + 3, callee.retTy⟩
      (Instr.call (mkIntrinCall (k + 1) k a0.ty c.args)) =
      Instr.call (mkIntrinCall (k + 1) k a0.ty c.args) :=
    substInstr_mkIntrinCall _ _ _ _ _
      (fun v hv => substValue_id_of_ne _ v (fun t hveq => hssa t (hveq ▸ hv)))
  have hgx1 : substInstr ⟨c.res, k + 3, callee.retTy⟩
      (Instr.call (mkIntrinCall (k + 3) (k + 2) callee.retTy
        [Value.instrRes (k + 1) a0.ty])) =
      Instr.call (mkIntrinCall (k + 3) (k + 2) callee.retTy
        [Value.instrRes (k + 1) a0.ty]) := by
    apply substInstr_mkIntrinCall
    intro v hv
    rw [List.mem_singleton] at hv
    subst hv
    apply substValue_id_of_ne
    intro t heq
    injection heq with h1 h2
    exact hresk h1.symm
  have hbodyeq : (pre ++ [Instr.call (mkIntrinCall (k + 1) k a0.ty c.args),
        Instr.call (mkIntrinCall (k + 3) (k + 2) callee.retTy
          [Value.instrRes (k + 1) a0.ty])] ++ post).map
          (substInstr ⟨c.res, k + 3, callee.retTy⟩) =
      pre.map (substInstr ⟨c.res, k + 3, callee.retTy⟩) ++
        Instr.call (mkIntrinCall (k + 1) k a0.ty c.args) ::
        Instr.call (mkIntrinCall (k + 3) (k + 2) callee.retTy
          [Value.instrRes (k + 1) a0.ty]) ::
        post.map (substInstr ⟨c.res, k + 3, callee.retTy⟩) := by
    rw [List.map_append, List.map_append, List.map_cons, List.map_cons, List.map_nil,
        hgx0, hgx1]
    rw [List.append_assoc]
    rfl
  rw [hbodyeq]
  rfl

theorem claim_C1_witness :
    BIConvert.runOnModule { funcs := [c1callee, c1main], globals := [], fresh := 20 } =
      Except.ok (demoteLinkage
        { funcs := [c1callee,
            { c1main with body :=
                (List.map (substInstr ⟨10, 21, Ty.floatTy⟩) [] ++
                 Instr.call (mkIntrinCall 21 20 Ty.floatTy [Value.constVal 5 Ty.floatTy]) ::
                 List.map (substInstr ⟨10, 21, Ty.floatTy⟩) [c1use]) },
            intrinsicDeclFunc IntrinsicID.fma [Ty.floatTy] 20],
          globals := [], fresh := 22 }) :=
  claim_C1_oneMap_rewrite c1callee c1main [] 20 [] [c1use] c1call
    (Ty.ptrTy Ty.floatTy) IntrinsicID.fma
    (by decide) rfl rfl rfl rfl rfl
    (by intro i hi; cases hi)
    (by decide)
    (by decide) (by decide) (by decide)
    (by intro t ht; simp [c1call] at ht)

def c2callee : Func :=
  sampleFn 1 "__builtin_IB_dtoi32_rte" [Ty.doubleTy] (Ty.intTy 32) FStatus.decl []

def c2call : CallData :=
  { res := 10, retTy := Ty.intTy 32, calleeOp := Value.funcRef 1 (Ty.ptrTy (Ty.intTy 32)),
    fnTy := ⟨[Ty.doubleTy], Ty.intTy 32⟩, args := [Value.constVal 5 Ty.doubleTy],
    cconv := 0 }

def c2use : Instr := Instr.other 11 (Ty.intTy 32) [Value.instrRes 10 (Ty.intTy 32)]

def c2main : Func :=
  sampleFn 0 "kernel" [] Ty.voidTy FStatus.defined [Instr.call c2call, c2use]

theorem claim_C2_witness :
    BIConvert.runOnModule { funcs := [c2callee, c2main], globals := [], fresh := 20 } =
      Except.ok (demoteLinkage
        { funcs := [c2callee,
            { c2main with body :=
                (List.map (substInstr ⟨10, 23, Ty.intTy 32⟩) [] ++
                 Instr.call (mkIntrinCall 21 20 Ty.doubleTy [Value.constVal 5 Ty.doubleTy]) ::
                 Instr.call (mkIntrinCall 23 22 (Ty.intTy 32)
                   [Value.instrRes 21 Ty.doubleTy]) ::
                 List.map (substInstr ⟨10, 23, Ty.intTy 32⟩) [c2use]) },
            intrinsicDeclFunc IntrinsicID.genx_rnde [Ty.doubleTy] 20,
            intrinsicDeclFunc IntrinsicID.genx_fptosi_sat [Ty.intTy 32, Ty.doubleTy] 22],
          globals := [], fresh := 24 }) :=
  claim_C2_twoMap_rewrite c2callee c2main [] 20 [] [c2use] c2call
    (Ty.ptrTy (Ty.intTy 32)) (IntrinsicID.genx_rnde, IntrinsicID.genx_fptosi_sat)
    (Value.constVal 5 Ty.doubleTy) []
    (by decide) (by decide) rfl rfl rfl rfl rfl rfl
    (by intro i hi; cases hi)
    (by decide)
    (by decide) (by decide) (by decide) (by decide) (by decide) (by decide)
    (by intro t ht; simp [c2call] at ht)

/-- `convertInstr` on a `TwoMap` key, over an arbitrary converter state:
the two chained intrinsic calls are emitted whatever the callee's
definition status is.  The intermediate `getDeclaration` results are bound
by the two equation hypotheses. -/
theorem convertInstr_twoMap (st : ConvSt) (c : CallData) (fid : Nat) (tv : Ty)
    (callee : Func) (pr : IntrinsicID × IntrinsicID) (a0 : Value) (arest : List Value)
    (st1 : ConvSt) (d0 : Nat) (st2 : ConvSt) (d1 : Nat)
    (hcop : c.calleeOp = Value.funcRef fid tv)
    (hfind : findFunc st.funcs fid = some callee)
    (hiid : callee.iid = IntrinsicID.not_intrinsic)
    (hone : OneMap callee.name = none)
    (hmap : TwoMap callee.name = some pr)
    (hargs : c.args = a0 :: arest)
    (hgd0 : getDeclaration st pr.1 [a0.ty] = (st1, d0))
    (hgd1 : getDeclaration { st1 with fresh := st1.fresh + 1 } pr.2
        [callee.retTy, a0.ty] = (st2, d1)) :
    convertInstr st (Instr.call c) = Except.ok
      ({ st2 with fresh := st2.fresh + 1 },
       [Instr.call (mkIntrinCall st1.fresh d0 a0.ty c.args),
        Instr.call (mkIntrinCall st2.fresh d1 callee.retTy
          [Value.instrRes st1.fresh a0.ty])],
       some ⟨c.res, st2.fresh, callee.retTy⟩) := by
  simp only [convertInstr, hcop, hfind]
  rw [if_neg (by rw [hiid]; decide), if_neg (by rw [hiid]; decide)]
  simp only [hone, hmap, hargs]
  simp only [hgd0]
  simp only [intrinsicRetTy_cons]
  simp only [hgd1]
  rfl

/-- `convertInstr` on a name with the `__builtin_IB_itof` prefix (no
table key): replaced by a single `SIToFP` to the callee's return type,
whatever the callee's definition status is. -/
theorem convertInstr_itof (st : ConvSt) (c : CallData) (fid : Nat) (tv : Ty)
    (callee : Func) (a0 : Value) (arest : List Value)
    (hcop : c.calleeOp = Value.funcRef fid tv)
    (hfind : findFunc st.funcs fid = some callee)
    (hiid : callee.iid = IntrinsicID.not_intrinsic)
    (hone : OneMap callee.name = none)
    (htwo : TwoMap callee.name = none)
    (hpre : strStartsWith callee.name "__builtin_IB_itof" = true)
    (hargs : c.args = a0 :: arest) :
    convertInstr st (Instr.call c) = Except.ok
      ({ st with fresh := st.fresh + 1 },
       [Instr.siToFP st.fresh a0 callee.retTy],
       some ⟨c.res, st.fresh, callee.retTy⟩) := by
  simp only [convertInstr, hcop, hfind]
  rw [if_neg (by rw [hiid]; decide), if_neg (by rw [hiid]; decide)]
  simp only [hone, htwo]
  rw [if_pos hpre]
  simp only [hargs]

/-- `convertInstr` on a name with the `__builtin_IB_uitof` prefix (no
table key, not an `itof` prefix match): replaced by a single `UIToFP` to
the callee's return type, whatever the callee's definition status is. -/
theorem convertInstr_uitof (st : ConvSt) (c : CallData) (fid : Nat) (tv : Ty)
    (callee : Func) (a0 : Value) (arest : List Value)
    (hcop : c.calleeOp = Value.funcRef fid tv)
    (hfind : findFunc st.funcs fid = some callee)
    (hiid : callee.iid = IntrinsicID.not_intrinsic)
    (hone : OneMap callee.name = none)
    (htwo : TwoMap callee.name = none)
    (hn1 : strStartsWith callee.name "__builtin_IB_itof" = false)
    (hpre : strStartsWith callee.name "__builtin_IB_uitof" = true)
    (hargs : c.args = a0 :: arest) :
    convertInstr st (Instr.call c) = Except.ok
      ({ st with fresh := st.fresh + 1 },
       [Instr.uiToFP st.fresh a0 callee.retTy],
       some ⟨c.res, st.fresh, callee.retTy⟩) := by
  simp only [convertInstr, hcop, hfind]
  rw [if_neg (by rw [hiid]; decide), if_neg (by rw [hiid]; decide)]
  simp only [hone, htwo]
  rw [if_neg (by rw [hn1]; decide), if_pos hpre]
  simp only [hargs]

/-- `convertInstr` on a name with the `__builtin_IB_mul_rtz` prefix (no
table key, no earlier prefix match): an `FMul` of the two arguments
followed by one `genx_rndz` call on its result, whatever the callee's
definition status is. -/
theorem convertInstr_mulRtz (st : ConvSt) (c : CallData) (fid : Nat) (tv : Ty)
    (callee : Func) (a0 a1 : Value) (arest : List Value) (st1 : ConvSt) (d : Nat)
    (hcop : c.calleeOp = Value.funcRef fid tv)
    (hfind : findFunc st.funcs fid = some callee)
    (hiid : callee.iid = IntrinsicID.not_intrinsic)
    (hone : OneMap callee.name = none)
    (htwo : TwoMap callee.name = none)
    (hn1 : strStartsWith callee.name "__builtin_IB_itof" = false)
    (hn2 : strStartsWith callee.name "__builtin_IB_uitof" = false)
    (hpre : strStartsWith callee.name "__builtin_IB_mul_rtz" = true)
    (hargs : c.args = a0 :: a1 :: arest)
    (hgd : getDeclaration { st with fresh := st.fresh + 1 } IntrinsicID.genx_rndz
        [a0.ty] = (st1, d)) :
    convertInstr st (Instr.call c) = Except.ok
      ({ st1 with fresh := st1.fresh + 1 },
       [Instr.fmul st.fresh a0 a1,
        Instr.call (mkIntrinCall st1.fresh d a0.ty [Value.instrRes st.fresh a0.ty])],
       some ⟨c.res, st1.fresh, a0.ty⟩) := by
  simp only [convertInstr, hcop, hfind]
  rw [if_neg (by rw [hiid]; decide), if_neg (by rw [hiid]; decide)]
  simp only [hone, htwo]
  rw [if_neg (by rw [hn1]; decide), if_neg (by rw [hn2]; decide), if_pos hpre]
  simp only [hargs]
  simp only [hgd]
  rfl

/-- `convertInstr` on a name with the `__builtin_IB_add_rtz` prefix (no
table key, no earlier prefix match): an `FAdd` of the two arguments
followed by one `genx_rndz` call on its result, whatever the callee's
definition status is. -/
theorem convertInstr_addRtz (st : ConvSt) (c : CallData) (fid : Nat) (tv : Ty)
    (callee : Func) (a0 a1 : Value) (arest : List Value) (st1 : ConvSt) (d : Nat)
    (hcop : c.calleeOp = Value.funcRef fid tv)
    (hfind : findFunc st.funcs fid = some callee)
    (hiid : callee.iid = IntrinsicID.not_intrinsic)
    (hone : OneMap callee.name = none)
    (htwo : TwoMap callee.name = none)
    (hn1 : strStartsWith callee.name "__builtin_IB_itof" = false)
    (hn2 : strStartsWith callee.name "__builtin_IB_uitof" = false)
    (hn3 : strStartsWith callee.name "__builtin_IB_mul_rtz" = false)
    (hpre : strStartsWith callee.name "__builtin_IB_add_rtz" = true)
    (hargs : c.args = a0 :: a1 :: arest)
    (hgd : getDeclaration { st with fresh := st.fresh + 1 } IntrinsicID.genx_rndz
        [a0.ty] = (st1, d)) :
    convertInstr st (Instr.call c) = Except.ok
      ({ st1 with fresh := st1.fresh + 1 },
       [Instr.fadd st.fresh a0 a1,
        Instr.call (mkIntrinCall st1.fresh d a0.ty [Value.instrRes st.fresh a0.ty])],
       some ⟨c.res, st1.fresh, a0.ty⟩) := by
  simp only [convertInstr, hcop, hfind]
  rw [if_neg (by rw [hiid]; decide), if_neg (by rw [hiid]; decide)]
  simp only [hone, htwo]
  rw [if_neg (by rw [hn1]; decide), if_neg (by rw [hn2]; decide),
      if_neg (by rw [hn3]; decide), if_pos hpre]
  simp only [hargs]
  simp only [hgd]
  rfl

/-- C10: the Call Rewriter dispatches purely on the direct callee's name
(or intrinsic identifier), with no condition on the callee's definition
status or body — a fully defined callee is bypassed exactly like a
declaration.  Conjuncts 1–6 cover every name-keyed branch: a `OneMap`
key, a `TwoMap` key, and the `__builtin_IB_itof` / `__builtin_IB_uitof` /
`__builtin_IB_mul_rtz` / `__builtin_IB_add_rtz` prefixes each trigger
their rewrite for any callee found under the call's function reference.
Last conjunct: a call whose callee operand is not a direct function
reference is never rewritten or deleted by this pass. -/
theorem claim_C10_dispatch_by_name :
    (∀ (st : ConvSt) (c : CallData) (callee : Func) (tv : Ty) (iid : IntrinsicID),
      c.calleeOp = Value.funcRef callee.fid tv →
      findFunc st.funcs callee.fid = some callee →
      callee.iid = IntrinsicID.not_intrinsic →
      OneMap callee.name = some iid →
      convertInstr st (Instr.call c) = Except.ok
        ({ (getDeclaration st iid [callee.retTy]).1 with
            fresh := (getDeclaration st iid [callee.retTy]).1.fresh + 1 },
         [Instr.call (mkIntrinCall (getDeclaration st iid [callee.retTy]).1.fresh
            (getDeclaration st iid [callee.retTy]).2 callee.retTy c.args)],
         some ⟨c.res, (getDeclaration st iid [callee.retTy]).1.fresh, callee.retTy⟩)) ∧
    (∀ (st : ConvSt) (c : CallData) (callee : Func) (tv : Ty)
        (pr : IntrinsicID × IntrinsicID) (a0 : Value) (arest : List Value)
        (st1 : ConvSt) (d0 : Nat) (st2 : ConvSt) (d1 : Nat),
      c.calleeOp = Value.funcRef callee.fid tv →
      findFunc st.funcs callee.fid = some callee →
      callee.iid = IntrinsicID.not_intrinsic →
      OneMap callee.name = none →
      TwoMap callee.name = some pr →
      c.args = a0 :: arest →
      getDeclaration st pr.1 [a0.ty] = (st1, d0) →
      getDeclaration { st1 with fresh := st1.fresh + 1 } pr.2
        [callee.retTy, a0.ty] = (st2, d1) →
      convertInstr st (Instr.call c) = Except.ok
        ({ st2 with fresh := st2.fresh + 1 },
         [Instr.call (mkIntrinCall st1.fresh d0 a0.ty c.args),
          Instr.call (mkIntrinCall st2.fresh d1 callee.retTy
            [Value.instrRes st1.fresh a0.ty])],
         some ⟨c.res, st2.fresh, callee.retTy⟩)) ∧
    (∀ (st : ConvSt) (c : CallData) (callee : Func) (tv : Ty)
        (a0 : Value) (arest : List Value),
      c.calleeOp = Value.funcRef callee.fid tv →
      findFunc st.funcs callee.fid = some callee →
      callee.iid = IntrinsicID.not_intrinsic →
      OneMap callee.name = none →
      TwoMap callee.name = none →
      strStartsWith callee.name "__builtin_IB_itof" = true →
      c.args = a0 :: arest →
      convertInstr st (Instr.call c) = Except.ok
        ({ st with fresh := st.fresh + 1 },
         [Instr.siToFP st.fresh a0 callee.retTy],
         some ⟨c.res, st.fresh, callee.retTy⟩)) ∧
    (∀ (st : ConvSt) (c : CallData) (callee : Func) (tv : Ty)
        (a0 : Value) (arest : List Value),
      c.calleeOp = Value.funcRef callee.fid tv →
      findFunc st.funcs callee.fid = some callee →
      callee.iid = IntrinsicID.not_intrinsic →
      OneMap callee.name = none →
      TwoMap callee.name = none →
      strStartsWith callee.name "__builtin_IB_itof" = false →
      strStartsWith callee.name "__builtin_IB_uitof" = true →
      c.args = a0 :: arest →
      convertInstr st (Instr.call c) = Except.ok
        ({ st with fresh := st.fresh + 1 },
         [Instr.uiToFP st.fresh a0 callee.retTy],
         some ⟨c.res, st.fresh, callee.retTy⟩)) ∧
    (∀ (st : ConvSt) (c : CallData) (callee : Func) (tv : Ty)
        (a0 a1 : Value) (arest : List Value) (st1 : ConvSt) (d : Nat),
      c.calleeOp = Value.funcRef callee.fid tv →
      findFunc st.funcs callee.fid = some callee →
      callee.iid = IntrinsicID.not_intrinsic →
      OneMap callee.name = none →
      TwoMap callee.name = none →
      strStartsWith callee.name "__builtin_IB_itof" = false →
      strStartsWith callee.name "__builtin_IB_uitof" = false →
      strStartsWith callee.name "__builtin_IB_mul_rtz" = true →
      c.args = a0 :: a1 :: arest →
      getDeclaration { st with fresh := st.fresh + 1 } IntrinsicID.genx_rndz
        [a0.ty] = (st1, d) →
      convertInstr st (Instr.call c) = Except.ok
        ({ st1 with fresh := st1.fresh + 1 },
         [Instr.fmul st.fresh a0 a1,
          Instr.call (mkIntrinCall st1.fresh d a0.ty [Value.instrRes st.fresh a0.ty])],
         some ⟨c.res, st1.fresh, a0.ty⟩)) ∧
    (∀ (st : ConvSt) (c : CallData) (callee : Func) (tv : Ty)
        (a0 a1 : Value) (arest : List Value) (st1 : ConvSt) (d : Nat),
      c.calleeOp = Value.funcRef callee.fid tv →
      findFunc st.funcs callee.fid = some callee →
      callee.iid = IntrinsicID.not_intrinsic →
      OneMap callee.name = none →
      TwoMap callee.name = none →
      strStartsWith callee.name "__builtin_IB_itof" = false →
      strStartsWith callee.name "__builtin_IB_uitof" = false →
      strStartsWith callee.name "__builtin_IB_mul_rtz" = false →
      strStartsWith callee.name "__builtin_IB_add_rtz" = true →
      c.args = a0 :: a1 :: arest →
      getDeclaration { st with fresh := st.fresh + 1 } IntrinsicID.genx_rndz
        [a0.ty] = (st1, d) →
      convertInstr st (Instr.call c) = Except.ok
        ({ st1 with fresh := st1.fresh + 1 },
         [Instr.fadd st.fresh a0 a1,
          Instr.call (mkIntrinCall st1.fresh d a0.ty [Value.instrRes st.fresh a0.ty])],
         some ⟨c.res, st1.fresh, a0.ty⟩)) ∧
    (∀ (st : ConvSt) (c : CallData),
      (∀ fid tv, c.calleeOp ≠ Value.funcRef fid tv) →
      convertInstr st (Instr.call c) = Except.ok (st, [Instr.call c], none)) := by
  refine ⟨?_, ?_, ?_, ?_, ?_, ?_, ?_⟩
  · intro st c callee tv iid hcop hfind hiid hmap
    exact convertInstr_oneMap st c callee.fid tv callee iid hcop hfind hiid hmap
  · intro st c callee tv pr a0 arest st1 d0 st2 d1 hcop hfind hiid hone hmap hargs
      hgd0 hgd1
    exact convertInstr_twoMap st c callee.fid tv callee pr a0 arest st1 d0 st2 d1
      hcop hfind hiid hone hmap hargs hgd0 hgd1
  · intro st c callee tv a0 arest hcop hfind hiid hone htwo hpre hargs
    exact convertInstr_itof st c callee.fid tv callee a0 arest hcop hfind hiid hone
      htwo hpre hargs
  · intro st c callee tv a0 arest hcop hfind hiid hone htwo hn1 hpre hargs
    exact convertInstr_uitof st c callee.fid tv callee a0 arest hcop hfind hiid hone
      htwo hn1 hpre hargs
  · intro st c callee tv a0 a1 arest st1 d hcop hfind hiid hone htwo hn1 hn2 hpre
      hargs hgd
    exact convertInstr_mulRtz st c callee.fid tv callee a0 a1 arest st1 d hcop hfind
      hiid hone htwo hn1 hn2 hpre hargs hgd
  · intro st c callee tv a0 a1 arest st1 d hcop hfind hiid hone htwo hn1 hn2 hn3
      hpre hargs hgd
    exact convertInstr_addRtz st c callee.fid tv callee a0 a1 arest st1 d hcop hfind
      hiid hone htwo hn1 hn2 hn3 hpre hargs hgd
  · intro st c hnd
    apply convertInstr_notDirectCall
    cases hv : c.calleeOp with
    | funcRef a t => exact absurd hv (hnd a t)
    | instrRes a t => simp [notDirectCall, hv]
    | argRef a t => simp [notDirectCall, hv]
    | bitcastFn a t => simp [notDirectCall, hv]
    | constVal a t => simp [notDirectCall, hv]

def c10callee : Func :=
  sampleFn 1 "__builtin_IB_fmax" [Ty.floatTy, Ty.floatTy] Ty.floatTy
    FStatus.defined [Instr.other 40 Ty.floatTy []]

def c10call : CallData :=
  { res := 10, retTy := Ty.floatTy, calleeOp := Value.funcRef 1 (Ty.ptrTy Ty.floatTy),
    fnTy := ⟨[Ty.floatTy, Ty.floatTy], Ty.floatTy⟩,
    args := [Value.constVal 5 Ty.floatTy, Value.constVal 6 Ty.floatTy], cconv := 0 }

def c10indirect : CallData :=
  { c10call with calleeOp := Value.bitcastFn 1 (Ty.ptrTy Ty.floatTy) }

def c10two : Func :=
  sampleFn 1 "__builtin_IB_dtoi32_rte" [Ty.doubleTy] (Ty.intTy 32)
    FStatus.defined [Instr.other 41 Ty.voidTy []]

def c10twocall : CallData :=
  { res := 10, retTy := Ty.intTy 32, calleeOp := Value.funcRef 1 (Ty.ptrTy (Ty.intTy 32)),
    fnTy := ⟨[Ty.doubleTy], Ty.intTy 32⟩, args := [Value.constVal 5 Ty.doubleTy], cconv := 0 }

def c10itof : Func :=
  sampleFn 1 "__builtin_IB_itof_f64" [Ty.intTy 32] Ty.doubleTy
    FStatus.defined [Instr.other 42 Ty.voidTy []]

def c10itofcall : CallData :=
  { res := 10, retTy := Ty.doubleTy, calleeOp := Value.funcRef 1 (Ty.ptrTy Ty.doubleTy),
    fnTy := ⟨[Ty.intTy 32], Ty.doubleTy⟩, args := [Value.constVal 5 (Ty.intTy 32)], cconv := 0 }

def c10uitof : Func :=
  sampleFn 1 "__builtin_IB_uitof_f64" [Ty.intTy 32] Ty.doubleTy
    FStatus.defined [Instr.other 43 Ty.voidTy []]

def c10uitofcall : CallData :=
  { res := 10, retTy := Ty.doubleTy, calleeOp := Value.funcRef 1 (Ty.ptrTy Ty.doubleTy),
    fnTy := ⟨[Ty.intTy 32], Ty.doubleTy⟩, args := [Value.constVal 5 (Ty.intTy 32)], cconv := 0 }

def c10mul : Func :=
  sampleFn 1 "__builtin_IB_mul_rtz_f32" [Ty.floatTy, Ty.floatTy] Ty.floatTy
    FStatus.defined [Instr.other 44 Ty.voidTy []]

def c10mulcall : CallData :=
  { res := 10, retTy := Ty.floatTy, calleeOp := Value.funcRef 1 (Ty.ptrTy Ty.floatTy),
    fnTy := ⟨[Ty.floatTy, Ty.floatTy], Ty.floatTy⟩,
    args := [Value.constVal 5 Ty.floatTy, Value.constVal 6 Ty.floatTy], cconv := 0 }

def c10add : Func :=
  sampleFn 1 "__builtin_IB_add_rtz_f32" [Ty.floatTy, Ty.floatTy] Ty.floatTy
    FStatus.defined [Instr.other 45 Ty.voidTy []]

def c10addcall : CallData :=
  { res := 10, retTy := Ty.floatTy, calleeOp := Value.funcRef 1 (Ty.ptrTy Ty.floatTy),
    fnTy := ⟨[Ty.floatTy, Ty.floatTy], Ty.floatTy⟩,
    args := [Value.constVal 5 Ty.floatTy, Value.constVal 6 Ty.floatTy], cconv := 0 }

theorem claim_C10_witness :
    (convertInstr ⟨[c10callee], 30⟩ (Instr.call c10call) = Except.ok
      (⟨[c10callee, intrinsicDeclFunc IntrinsicID.genx_fmax [Ty.floatTy] 30], 32⟩,
       [Instr.call (mkIntrinCall 31 30 Ty.floatTy
          [Value.constVal 5 Ty.floatTy, Value.constVal 6 Ty.floatTy])],
       some ⟨10, 31, Ty.floatTy⟩)) ∧
    (convertInstr ⟨[c10two], 30⟩ (Instr.call c10twocall) = Except.ok
      (⟨[c10two, intrinsicDeclFunc IntrinsicID.genx_rnde [Ty.doubleTy] 30,
         intrinsicDeclFunc IntrinsicID.genx_fptosi_sat [Ty.intTy 32, Ty.doubleTy] 32], 34⟩,
       [Instr.call (mkIntrinCall 31 30 Ty.doubleTy [Value.constVal 5 Ty.doubleTy]),
        Instr.call (mkIntrinCall 33 32 (Ty.intTy 32) [Value.instrRes 31 Ty.doubleTy])],
       some ⟨10, 33, Ty.intTy 32⟩)) ∧
    (convertInstr ⟨[c10itof], 30⟩ (Instr.call c10itofcall) = Except.ok
      (⟨[c10itof], 31⟩,
       [Instr.siToFP 30 (Value.constVal 5 (Ty.intTy 32)) Ty.doubleTy],
       some ⟨10, 30, Ty.doubleTy⟩)) ∧
    (convertInstr ⟨[c10uitof], 30⟩ (Instr.call c10uitofcall) = Except.ok
      (⟨[c10uitof], 31⟩,
       [Instr.uiToFP 30 (Value.constVal 5 (Ty.intTy 32)) Ty.doubleTy],
       some ⟨10, 30, Ty.doubleTy⟩)) ∧
    (convertInstr ⟨[c10mul], 30⟩ (Instr.call c10mulcall) = Except.ok
      (⟨[c10mul, intrinsicDeclFunc IntrinsicID.genx_rndz [Ty.floatTy] 31], 33⟩,
       [Instr.fmul 30 (Value.constVal 5 Ty.floatTy) (Value.constVal 6 Ty.floatTy),
        Instr.call (mkIntrinCall 32 31 Ty.floatTy [Value.instrRes 30 Ty.floatTy])],
       some ⟨10, 32, Ty.floatTy⟩)) ∧
    (convertInstr ⟨[c10add], 30⟩ (Instr.call c10addcall) = Except.ok
      (⟨[c10add, intrinsicDeclFunc IntrinsicID.genx_rndz [Ty.floatTy] 31], 33⟩,
       [Instr.fadd 30 (Value.constVal 5 Ty.floatTy) (Value.constVal 6 Ty.floatTy),
        Instr.call (mkIntrinCall 32 31 Ty.floatTy [Value.instrRes 30 Ty.floatTy])],
       some ⟨10, 32, Ty.floatTy⟩)) ∧
    (convertInstr ⟨[c10callee], 30⟩ (Instr.call c10indirect) =
      Except.ok (⟨[c10callee], 30⟩, [Instr.call c10indirect], none)) :=
  ⟨claim_C10_dispatch_by_name.1 ⟨[c10callee], 30⟩ c10call c10callee
      (Ty.ptrTy Ty.floatTy) IntrinsicID.genx_fmax rfl (by decide) rfl (by decide),
   claim_C10_dispatch_by_name.2.1 ⟨[c10two], 30⟩ c10twocall c10two
      (Ty.ptrTy (Ty.intTy 32)) (IntrinsicID.genx_rnde, IntrinsicID.genx_fptosi_sat)
      (Value.constVal 5 Ty.doubleTy) []
      ⟨[c10two, intrinsicDeclFunc IntrinsicID.genx_rnde [Ty.doubleTy] 30], 31⟩ 30
      ⟨[c10two, intrinsicDeclFunc IntrinsicID.genx_rnde [Ty.doubleTy] 30,
        intrinsicDeclFunc IntrinsicID.genx_fptosi_sat [Ty.intTy 32, Ty.doubleTy] 32], 33⟩ 32
      rfl (by decide) rfl (by decide) (by decide) rfl (by rfl) (by rfl),
   claim_C10_dispatch_by_name.2.2.1 ⟨[c10itof], 30⟩ c10itofcall c10itof
      (Ty.ptrTy Ty.doubleTy) (Value.constVal 5 (Ty.intTy 32)) []
      rfl (by decide) rfl (by decide) (by decide) (by rfl) rfl,
   claim_C10_dispatch_by_name.2.2.2.1 ⟨[c10uitof], 30⟩ c10uitofcall c10uitof
      (Ty.ptrTy Ty.doubleTy) (Value.constVal 5 (Ty.intTy 32)) []
      rfl (by decide) rfl (by decide) (by decide) (by rfl) (by rfl) rfl,
   claim_C10_dispatch_by_name.2.2.2.2.1 ⟨[c10mul], 30⟩ c10mulcall c10mul
      (Ty.ptrTy Ty.floatTy) (Value.constVal 5 Ty.floatTy) (Value.constVal 6 Ty.floatTy) []
      ⟨[c10mul, intrinsicDeclFunc IntrinsicID.genx_rndz [Ty.floatTy] 31], 32⟩ 31
      rfl (by decide) rfl (by decide) (by decide) (by rfl) (by rfl) (by rfl) rfl (by rfl),
   claim_C10_dispatch_by_name.2.2.2.2.2.1 ⟨[c10add], 30⟩ c10addcall c10add
      (Ty.ptrTy Ty.floatTy) (Value.constVal 5 Ty.floatTy) (Value.constVal 6 Ty.floatTy) []
      ⟨[c10add, intrinsicDeclFunc IntrinsicID.genx_rndz [Ty.floatTy] 31], 32⟩ 31
      rfl (by decide) rfl (by decide) (by decide) (by rfl) (by rfl) (by rfl) (by rfl)
      rfl (by rfl),
   claim_C10_dispatch_by_name.2.2.2.2.2.2 ⟨[c10callee], 30⟩ c10indirect
      (by intro fid tv h; cases h)⟩

/-- Does the Call Rewriter alter this instruction?  True exactly when it
is a direct call whose callee matches one of the rewrite tables, the
hard-coded name patterns, or the lifetime/ctlz intrinsic identifiers. -/
def rewriteMatched (funcs : List Func) : Instr → Bool
  | Instr.call c =>
    match c.calleeOp with
    | Value.funcRef fid _ =>
      match findFunc funcs fid with
      | none => false
      | some callee =>
        decide (callee.iid = IntrinsicID.lifetime_start ∨
                callee.iid = IntrinsicID.lifetime_end) ||
        decide (callee.iid = IntrinsicID.ctlz) ||
        (OneMap callee.name).isSome ||
        (TwoMap callee.name).isSome ||
        strStartsWith callee.name "__builtin_IB_itof" ||
        strStartsWith callee.name "__builtin_IB_uitof" ||
        strStartsWith callee.name "__builtin_IB_mul_rtz" ||
        strStartsWith callee.name "__builtin_IB_add_rtz"
    | _ => false
  | _ => false

/-- Is this a call through a `ConstantExpr` pointer cast (the only shape
`removeFunctionBitcasts` repairs)? -/
def bitcastCall : Instr → Bool
  | Instr.call c =>
    match c.calleeOp with
    | Value.bitcastFn _ _ => true
    | _ => false
  | _ => false

theorem isSome_false {α : Type} (o : Option α) (h : o.isSome = false) : o = none := by
  cases o with
  | none => rfl
  | some x => simp at h

theorem convertInstr_no_match (st : ConvSt) (i : Instr)
    (h : rewriteMatched st.funcs i = false) :
    convertInstr st i = Except.ok (st, [i], none) := by
  cases i with
  | call c =>
    cases hv : c.calleeOp with
    | funcRef fid t =>
      cases hfind : findFunc st.funcs fid with
      | none => simp only [convertInstr, hv, hfind]
      | some callee =>
        simp only [rewriteMatched, hv, hfind] at h
        rw [Bool.or_eq_false_iff] at h
        obtain ⟨h, h8⟩ := h
        rw [Bool.or_eq_false_iff] at h
        obtain ⟨h, h7⟩ := h
        rw [Bool.or_eq_false_iff] at h
        obtain ⟨h, h6⟩ := h
        rw [Bool.or_eq_false_iff] at h
        obtain ⟨h, h5⟩ := h
        rw [Bool.or_eq_false_iff] at h
        obtain ⟨h, h4⟩ := h
        rw [Bool.or_eq_false_iff] at h
        obtain ⟨h, h3⟩ := h
        rw [Bool.or_eq_false_iff] at h
        obtain ⟨h1, h2⟩ := h
        have hone := isSome_false _ h3
        have htwo := isSome_false _ h4
        simp only [convertInstr, hv, hfind]
        rw [if_neg (of_decide_eq_false h1), if_neg (of_decide_eq_false h2)]
        simp only [hone, htwo]
        rw [if_neg (by simp [h5]), if_neg (by simp [h6]), if_neg (by simp [h7]),
            if_neg (by simp [h8])]
    | instrRes a t => simp only [convertInstr, hv]
    | argRef a t => simp only [convertInstr, hv]
    | bitcastFn a t => simp only [convertInstr, hv]
    | constVal a t => simp only [convertInstr, hv]
  | siToFP r a t => rfl
  | uiToFP r a t => rfl
  | fmul r a b => rfl
  | fadd r a b => rfl
  | other r t os => rfl

theorem convertBody_no_match (body : List Instr) (st : ConvSt)
    (h : ∀ i ∈ body, rewriteMatched st.funcs i = false) :
    ∀ done : List Instr, convertBody st done [] body = Except.ok (st, done ++ body) := by
  induction body with
  | nil => intro done; simp [convertBody]
  | cons i rest ih =>
    intro done
    have hstep : convertInstr st (applySubsts [] i) = Except.ok (st, [i], none) := by
      rw [applySubsts_nil]
      exact convertInstr_no_match st i (h i (List.mem_cons_self i rest))
    conv_lhs => rw [convertBody]
    rw [hstep]
    simp only
    rw [ih (fun j hj => h j (List.mem_cons_of_mem i hj)) (done ++ [i])]
    simp

theorem convertFuncs_no_match (fl : List Func) (st : ConvSt)
    (h : ∀ f ∈ fl, ∀ i ∈ f.body, rewriteMatched st.funcs i = false) :
    convertFuncs st fl = Except.ok (st, fl.map (fun f => (f.fid, f.body))) := by
  induction fl with
  | nil => rfl
  | cons f rest ih =>
    simp only [convertFuncs]
    rw [convertBody_no_match f.body st (h f (List.mem_cons_self f rest)) []]
    simp only [List.nil_append]
    rw [ih (fun g hg => h g (List.mem_cons_of_mem f hg))]
    rfl

theorem installBody_self (l : List Func) (hnd : (l.map Func.fid).Nodup) (f : Func)
    (hf : f ∈ l) :
    installBody (l.map (fun g => (g.fid, g.body))) f = f := by
  induction l with
  | nil => cases hf
  | cons g rest ih =>
    rw [List.map_cons] at hnd ⊢
    rw [List.nodup_cons] at hnd
    rcases List.mem_cons.mp hf with rfl | hf2
    · unfold installBody
      rw [List.find?_cons_of_pos _ (by simp)]
    · have hgne : g.fid ≠ f.fid := by
        intro hc
        exact hnd.1 (hc ▸ List.mem_map_of_mem Func.fid hf2)
      have hrec := ih hnd.2 hf2
      unfold installBody at hrec ⊢
      rw [List.find?_cons_of_neg _ (by simp [hgne])]
      exact hrec

theorem findFunc_unique (l : List Func) (hnd : (l.map Func.fid).Nodup) (fid : Nat)
    (f g : Func) (hfind : findFunc l fid = some f) (hg : g ∈ l) (hgfid : g.fid = fid) :
    g = f := by
  induction l with
  | nil => cases hg
  | cons a rest ih =>
    rw [List.map_cons, List.nodup_cons] at hnd
    unfold findFunc at hfind
    rcases List.mem_cons.mp hg with rfl | hg2
    · rw [List.find?_cons_of_pos _ (by simp [hgfid])] at hfind
      cases hfind
      rfl
    · by_cases ha : a.fid = fid
      · exact absurd (ha ▸ hgfid ▸ List.mem_map_of_mem Func.fid hg2) hnd.1
      · rw [List.find?_cons_of_neg _ (by simp [ha])] at hfind
        exact ih hnd.2 hfind hg2

theorem findFunc_mem_isSome (l : List Func) (f : Func) (hf : f ∈ l) :
    (findFunc l f.fid).isSome = true := by
  unfold findFunc
  rw [List.find?_isSome]
  exact ⟨f, hf, by simp⟩

theorem rfbStep_no_bitcast (st : RfbSt) (curFid : Nat) (done rest : List Instr)
    (i : Instr) (h : bitcastCall i = false) :
    rfbStep st curFid done rest i = (st, [i], none) := by
  cases i with
  | call c =>
    cases hv : c.calleeOp with
    | bitcastFn a t => simp [bitcastCall, hv] at h
    | funcRef a t => simp only [rfbStep, hv]
    | instrRes a t => simp only [rfbStep, hv]
    | argRef a t => simp only [rfbStep, hv]
    | constVal a t => simp only [rfbStep, hv]
  | siToFP r a t => rfl
  | uiToFP r a t => rfl
  | fmul r a b => rfl
  | fadd r a b => rfl
  | other r t os => rfl

theorem rfbBody_no_bitcast (body : List Instr) (st : RfbSt) (curFid : Nat)
    (h : ∀ i ∈ body, bitcastCall i = false) :
    ∀ done : List Instr, rfbBody st curFid done [] body = (st, done ++ body) := by
  induction body with
  | nil => intro done; simp [rfbBody]
  | cons i rest ih =>
    intro done
    have hstep : rfbStep st curFid done rest (applySubsts [] i) = (st, [i], none) := by
      rw [applySubsts_nil]
      exact rfbStep_no_bitcast st curFid done rest i (h i (List.mem_cons_self i rest))
    conv_lhs => rw [rfbBody]
    rw [hstep]
    simp only
    rw [ih (fun j hj => h j (List.mem_cons_of_mem i hj)) (done ++ [i])]
    simp

theorem rfbGo_no_bitcast (pending : List Nat) (fuel : Nat) (st : RfbSt)
    (hnd : (st.funcs.map Func.fid).Nodup)
    (h : ∀ f ∈ st.funcs, ∀ i ∈ f.body, bitcastCall i = false)
    (hfuel : pending.length ≤ fuel) :
    rfbGo fuel st pending = st := by
  induction pending generalizing fuel with
  | nil => cases fuel <;> rfl
  | cons fid rest ih =>
    cases fuel with
    | zero => exact absurd hfuel (by simp)
    | succ fuel =>
      show rfbGo (fuel + 1) st (fid :: rest) = st
      rw [rfbGo]
      cases hfind : findFunc st.funcs fid with
      | none =>
        simp only
        exact ih fuel (by simpa using Nat.le_of_succ_le_succ hfuel)
      | some f =>
        simp only
        have hfmem : f ∈ st.funcs := List.mem_of_find?_eq_some hfind
        rw [rfbBody_no_bitcast f.body st fid (h f hfmem) []]
        simp only [List.nil_append]
        have hmapid : st.funcs.map
            (fun g => if g.fid = fid then { g with body := f.body } else g) = st.funcs := by
          apply mapIdMem
          intro g hg
          by_cases hgf : g.fid = fid
          · rw [if_pos hgf]
            have : g = f := findFunc_unique st.funcs hnd fid f g hfind hg hgf
            subst this
            rfl
          · rw [if_neg hgf]
        rw [hmapid]
        have happ : st.funcs.filterMap
            (fun g => if (findFunc st.funcs g.fid).isSome then none else some g.fid) = [] := by
          rw [List.filterMap_eq_nil]
          intro g hg
          rw [if_pos (findFunc_mem_isSome st.funcs g hg)]
        rw [happ, List.append_nil]
        exact ih fuel (by simpa using Nat.le_of_succ_le_succ hfuel)

/-- C9 (amended): a module in which no call matches the rewrite tables,
the hard-coded name patterns or the lifetime/ctlz intrinsic identifiers,
and no call goes through a function bitcast, passes through both rewrite
passes with no instruction added or removed and no function or global
added or removed; however `BIConvert::runOnModule` still unconditionally
demotes linkage (`demoteLinkage`), so the module is unchanged only up to
that linkage demotion — `removeFunctionBitcasts` alone is the identity. -/
theorem claim_C9_noop_up_to_linkage (M : Module)
    (hnd : (M.funcs.map Func.fid).Nodup)
    (hno : ∀ f ∈ M.funcs, ∀ i ∈ f.body, rewriteMatched M.funcs i = false)
    (hnb : ∀ f ∈ M.funcs, ∀ i ∈ f.body, bitcastCall i = false) :
    removeFunctionBitcasts M = M ∧
    BIConvert.runOnModule M = Except.ok (demoteLinkage M) := by
  constructor
  · unfold removeFunctionBitcasts
    have hfuel : (M.funcs.map Func.fid).length ≤ rfbFuel M := by
      rw [List.length_map]
      unfold rfbFuel
      have h1 : M.funcs.length + numInstrs M + 1 ≤
          (M.funcs.length + numInstrs M + 1) * (numInstrs M + 2) :=
        Nat.le_mul_of_pos_right _ (by omega)
      omega
    rw [rfbGo_no_bitcast (M.funcs.map Func.fid) (rfbFuel M)
      ⟨M.funcs, [], M.fresh⟩ hnd hnb hfuel]
  · have hcf := convertFuncs_no_match M.funcs ⟨M.funcs, M.fresh⟩ hno
    simp only [BIConvert.runOnModule]
    rw [hcf]
    simp only
    rw [mapIdMem M.funcs _ (fun f hf => installBody_self M.funcs hnd f hf)]

def exC9 : Module :=
  { funcs := [sampleFn 0 "f" [] Ty.voidTy FStatus.defined []], globals := [], fresh := 1 }

/-- C9, counterexample to the claim as stated: a module with no call
instructions at all (so trivially free of matching builtin names and of
bitcast calls) is nonetheless changed by `BIConvert::runOnModule`: the
unconditional linkage finalization demotes its defined external function
to internal linkage, so "no function or global attribute is modified" is
false. -/
theorem claim_C9_counterexample :
    (∀ f ∈ exC9.funcs, f.body = []) ∧
    BIConvert.runOnModule exC9 = Except.ok (demoteLinkage exC9) ∧
    demoteLinkage exC9 ≠ exC9 :=
  ⟨by decide, rfl, by decide⟩

def c9wCall : CallData :=
  { res := 10, retTy := Ty.floatTy, calleeOp := Value.funcRef 0 (Ty.ptrTy Ty.floatTy),
    fnTy := ⟨[], Ty.floatTy⟩, args := [], cconv := 0 }

def c9wM : Module :=
  { funcs := [sampleFn 0 "helper" [] Ty.floatTy FStatus.defined [],
              sampleFn 1 "kernel" [] Ty.voidTy FStatus.defined [Instr.call c9wCall]],
    globals := [], fresh := 20 }

theorem claim_C9_witness :
    removeFunctionBitcasts c9wM = c9wM ∧
    BIConvert.runOnModule c9wM = Except.ok (demoteLinkage c9wM) :=
  claim_C9_noop_up_to_linkage c9wM (by decide) (by decide) (by decide)

/-! ## A fuelled mirror of the walk, for evaluating it on concrete states -/

/-- Structural (fuelled) mirror of `exploreStack`; `some` answers agree
with `exploreStack` (see `exploreStackF_sound`), and on a concrete state
the kernel can evaluate it. -/
def exploreStackF : Nat → LinkSt → List (Nat × List Nat) → Option (Except String LinkSt)
  | 0, _, _ => none
  | _ + 1, st, [] => some (Except.ok st)
  | n + 1, st, (_, []) :: frames => exploreStackF n st frames
  | n + 1, st, (r, c :: cs) :: frames =>
    match exploreStep st r c with
    | Except.error e => some (Except.error e)
    | Except.ok (st1, none) => exploreStackF n st1 ((r, cs) :: frames)
    | Except.ok (st1, some fr) => exploreStackF n st1 (fr :: (r, cs) :: frames)

theorem exploreStackF_sound :
    ∀ (n : Nat) (st : LinkSt) (K : List (Nat × List Nat)) (res : Except String LinkSt),
      exploreStackF n st K = some res → exploreStack st K = res := by
  intro n
  induction n with
  | zero =>
    intro st K res h
    exact Option.noConfusion h
  | succ n ih =>
    intro st K res h
    match K with
    | [] =>
      rw [exploreStack_nil]
      simp only [exploreStackF] at h
      exact Option.some.inj h
    | (r, []) :: K2 =>
      rw [exploreStack_pop]
      simp only [exploreStackF] at h
      exact ih st K2 res h
    | (r, c :: cs) :: K2 =>
      simp only [exploreStackF] at h
      split at h
      · rename_i e heq
        injection h with h1
        rw [exploreStack_cons_error st r c cs K2 e heq, h1]
      · rename_i st1 heq
        rw [exploreStack_cons_none st st1 r c cs K2 heq]
        exact ih st1 _ res h
      · rename_i st1 fr heq
        rw [exploreStack_cons_some st st1 r c cs K2 fr heq]
        exact ih st1 _ res h

theorem exploreRoots_nil (st : LinkSt) : exploreRoots st [] = Except.ok st := rfl

theorem exploreRoots_cons (st : LinkSt) (r : Nat) (rs : List Nat) :
    exploreRoots st (r :: rs) =
      match exploreStack (enterFunc st r).1 [(r, (enterFunc st r).2)] with
      | Except.error e => Except.error e
      | Except.ok st2 => exploreRoots st2 rs := rfl

/-- Structural (fuelled) mirror of `exploreRoots`. -/
def exploreRootsF (fuel : Nat) (st : LinkSt) : List Nat → Option (Except String LinkSt)
  | [] => some (Except.ok st)
  | r :: rs =>
    match exploreStackF fuel (enterFunc st r).1 [(r, (enterFunc st r).2)] with
    | none => none
    | some (Except.error e) => some (Except.error e)
    | some (Except.ok st2) => exploreRootsF fuel st2 rs

theorem exploreRootsF_sound :
    ∀ (rs : List Nat) (fuel : Nat) (st : LinkSt) (res : Except String LinkSt),
      exploreRootsF fuel st rs = some res → exploreRoots st rs = res := by
  intro rs
  induction rs with
  | nil =>
    intro fuel st res h
    simp only [exploreRootsF] at h
    rw [exploreRoots_nil]
    exact Option.some.inj h
  | cons r rs ih =>
    intro fuel st res h
    simp only [exploreRootsF] at h
    split at h
    · exact Option.noConfusion h
    · rename_i e heq
      have h1 : Except.error e = res := Option.some.inj h
      rw [exploreRoots_cons, exploreStackF_sound fuel _ _ _ heq, ← h1]
    · rename_i st2 heq
      rw [exploreRoots_cons, exploreStackF_sound fuel _ _ _ heq]
      exact ih fuel st2 res h

/-- C8: during the demand walk, a declared-only callee whose name has no
non-declaration counterpart in the library module is silently skipped:
the resolution step changes nothing and raises no error, and the driver
simply continues with the next callee of the same root, the unresolved
call left in place (exploration never modifies any call instruction of
the root's already collected body). -/
theorem claim_C8_unresolved_skipped (st : LinkSt) (r c : Nat) (callee : Func)
    (cs : List Nat) (K : List (Nat × List Nat))
    (hfind : findFunc2 st c = some callee)
    (hdecl : callee.status = FStatus.decl)
    (hlib : GetBuiltinFunction st.lib callee.name = none) :
    exploreStep st r c = Except.ok (st, none) ∧
    exploreStack st ((r, c :: cs) :: K) = exploreStack st ((r, cs) :: K) := by
  have h := exploreStep_unresolved st r c callee hfind hdecl hlib
  exact ⟨h, exploreStack_cons_none st st r c cs K h⟩

def c8decl : Func := sampleFn 1 "X" [] Ty.voidTy FStatus.decl []

def c8st : LinkSt :=
  { main := { funcs := [sampleFn 0 "R" [] Ty.voidTy FStatus.defined [], c8decl],
              globals := [], fresh := 100 },
    lib := { funcs := [sampleFn 2 "Y" [] Ty.voidTy FStatus.materializable []],
             globals := [], fresh := 0 } }

theorem claim_C8_witness :
    exploreStep c8st 0 1 = Except.ok (c8st, none) ∧
    exploreStack c8st [(0, [1])] = exploreStack c8st [(0, [])] :=
  claim_C8_unresolved_skipped c8st 0 1 c8decl [] [] (by rfl) (by rfl) (by rfl)

/-- C3 (amended): in the demand walk, a callee that is already defined
(not a declaration) is resolved to itself, but the walk does NOT recurse
into it: recursion only happens after materializing a materializable
function, and an already defined function is not materializable, so the
resolution step changes nothing, pushes no frame, and the driver moves on
to the next callee of the same root. -/
theorem claim_C3_defined_callee_not_recursed (st : LinkSt) (r c : Nat) (callee : Func)
    (cs : List Nat) (K : List (Nat × List Nat))
    (hfind : findFunc2 st c = some callee)
    (hdef : callee.status = FStatus.defined) :
    exploreStep st r c = Except.ok (st, none) ∧
    exploreStack st ((r, c :: cs) :: K) = exploreStack st ((r, cs) :: K) := by
  have h := exploreStep_defined st r c callee hfind hdef
  exact ⟨h, exploreStack_cons_none st st r c cs K h⟩

def c3cd (res fid : Nat) : CallData :=
  { res := res, retTy := Ty.voidTy,
    calleeOp := Value.funcRef fid (Ty.ptrTy Ty.voidTy),
    fnTy := ⟨[], Ty.voidTy⟩, args := [], cconv := 0 }

def c3call (res fid : Nat) : Instr := Instr.call (c3cd res fid)

def c3g : Func := sampleFn 3 "G" [] Ty.voidTy FStatus.defined [c3call 12 4]

/-- Root `R` calls the declaration `F`, resolved in the library to a
materializable `F` whose body calls the already defined `G`, whose body
in turn calls the materializable `H`. -/
def exC3 : LinkSt :=
  { main := { funcs := [sampleFn 0 "R" [] Ty.voidTy FStatus.defined [c3call 10 1],
                        sampleFn 1 "F" [] Ty.voidTy FStatus.decl []],
              globals := [], fresh := 100 },
    lib := { funcs := [sampleFn 2 "F" [] Ty.voidTy FStatus.materializable [c3call 11 3],
                       c3g,
                       sampleFn 4 "H" [] Ty.voidTy FStatus.materializable []],
             globals := [], fresh := 0 } }

/-- C3, counterexample to the claim as stated: the defined function `G`
(identity 3) is reached as a callee during the walk, its body calls the
materializable `H` (identity 4), yet the walk does not recurse into `G`:
the resolution step on `G` pushes no frame, and after the full walk `H`
is still unmaterialized — which could not happen if the walk recursed
into defined callees' bodies. -/
theorem claim_C3_counterexample :
    (findFunc2 exC3 3).map Func.status = some FStatus.defined ∧
    (findFunc2 exC3 3).map (fun f => calledFids f.body) = some [4] ∧
    exploreStep exC3 2 3 = Except.ok (exC3, none) ∧
    (exploreAll exC3).map (fun stF => (findFunc2 stF 4).map Func.status) =
      Except.ok (some FStatus.materializable) := by
  refine ⟨by rfl, by rfl, by rfl, ?_⟩
  have h : exploreAll exC3 = (exploreRootsF 8 exC3 [0, 1]).getD (Except.ok exC3) := by
    show exploreRoots exC3 [0, 1] = _
    exact exploreRootsF_sound [0, 1] 8 exC3 _ (by rfl)
  rw [h]
  rfl

theorem claim_C3_witness :
    exploreStep exC3 2 3 = Except.ok (exC3, none) ∧
    exploreStack exC3 [(2, [3])] = exploreStack exC3 [(2, [])] :=
  claim_C3_defined_callee_not_recursed exC3 2 3 c3g [] [] (by rfl) (by rfl)

/-- C6: during the demand walk, when the resolved library function is
materializable, a failing `materialize()` is fatal: the whole walk aborts
at once with the diagnostic naming the failure reason, and no frame of
the pending exploration is processed further.  On success, the loaded
function becomes defined, the root's calling convention is propagated
onto it, and the walk recurses into its body (its frame is pushed). -/
theorem claim_C6_materialize_failure_fatal
    (st : LinkSt) (r c : Nat) (callee pf root : Func) (cs : List Nat)
    (K : List (Nat × List Nat))
    (hfind : findFunc2 st c = some callee)
    (hdecl : callee.status = FStatus.decl)
    (hlib : GetBuiltinFunction st.lib callee.name = some pf)
    (hmat : pf.status = FStatus.materializable)
    (hpffind : findFunc2 st pf.fid = some pf)
    (hroot : findFunc2 st r = some root)
    (hrne : root.fid ≠ pf.fid) :
    (∀ msg, pf.matFails = some msg →
      exploreStack st ((r, c :: cs) :: K) =
        Except.error ("===> Materialize Failure: " ++ msg)) ∧
    (pf.matFails = none →
      ∃ st3,
        exploreStep st r c = Except.ok (st3, some (pf.fid, calledFids pf.body)) ∧
        exploreStack st ((r, c :: cs) :: K) =
          exploreStack st3 ((pf.fid, calledFids pf.body) :: (r, cs) :: K) ∧
        (findFunc2 st3 pf.fid).map Func.status = some FStatus.defined ∧
        (findFunc2 st3 pf.fid).map Func.cconv = some root.cconv) := by
  constructor
  · intro msg hfail
    exact exploreStack_cons_error st r c cs K _
      (exploreStep_materialize_fail st r c callee pf msg hfind hdecl hlib hmat hfail)
  · intro hok
    obtain ⟨st3, h1, h2, h3⟩ :=
      exploreStep_materialize_ok st r c callee pf root hfind hdecl hlib hmat hok
        hpffind hroot hrne
    exact ⟨st3, h1, exploreStack_cons_some st st3 r c cs K _ h1, h2, h3⟩

def c6root : Func := sampleFn 0 "R" [] Ty.voidTy FStatus.defined []

def c6decl : Func := sampleFn 1 "F" [] Ty.voidTy FStatus.decl []

def c6flibF : Func :=
  { sampleFn 2 "F" [] Ty.voidTy FStatus.materializable [] with matFails := some "boom" }

def c6flibO : Func := sampleFn 2 "F" [] Ty.voidTy FStatus.materializable []

def c6stF : LinkSt :=
  { main := { funcs := [c6root, c6decl], globals := [], fresh := 50 },
    lib := { funcs := [c6flibF], globals := [], fresh := 0 } }

def c6stO : LinkSt :=
  { main := { funcs := [c6root, c6decl], globals := [], fresh := 50 },
    lib := { funcs := [c6flibO], globals := [], fresh := 0 } }

theorem claim_C6_witness :
    exploreStack c6stF [(0, [1])] =
      Except.error ("===> Materialize Failure: " ++ "boom") ∧
    ∃ st3,
      exploreStep c6stO 0 1 = Except.ok (st3, some (2, ([] : List Nat))) ∧
      exploreStack c6stO [(0, [1])] = exploreStack st3 [(2, ([] : List Nat)), (0, [])] ∧
      (findFunc2 st3 2).map Func.status = some FStatus.defined ∧
      (findFunc2 st3 2).map Func.cconv = some 0 :=
  ⟨(claim_C6_materialize_failure_fatal c6stF 0 1 c6decl c6flibF c6root [] []
      (by rfl) (by rfl) (by rfl) (by rfl) (by rfl) (by rfl) (by decide)).1 "boom" (by rfl),
   (claim_C6_materialize_failure_fatal c6stO 0 1 c6decl c6flibO c6root [] []
      (by rfl) (by rfl) (by rfl) (by rfl) (by rfl) (by rfl) (by decide)).2 (by rfl)⟩

/-- The declaration created by `Function::Create` inside
`removeFunctionBitcasts`, as appended before the arity check (the `shell`
of `rfbStep`). -/
def strayShell (orig : Func) (c : CallData) (fresh : Nat) : Func :=
  { fid := fresh, name := orig.name, iid := IntrinsicID.not_intrinsic, intrTys := [],
    params := c.fnTy.params, retTy := c.fnTy.ret, status := FStatus.decl, body := [],
    matFails := none, linkage := orig.linkage, dllExport := false, cconv := 0, attrs := 0 }

/-- C4 (amended): on a bitcast call to a defined function whose parameter
count differs from the call's signature (with no cached clone), the repair
skips the call — the instruction is left exactly as it was and no
use-redirection is recorded — but it is NOT a pure no-op on the module:
`Function::Create` has already appended a fresh empty declaration with the
call's signature before the arity check, and that stray function stays. -/
theorem claim_C4_arity_mismatch_stray (st : RfbSt) (curFid : Nat)
    (done rest : List Instr) (c : CallData) (origFid : Nat) (ty : Ty) (orig : Func)
    (hop : c.calleeOp = Value.bitcastFn origFid ty)
    (hfind : findFunc st.funcs origFid = some orig)
    (hnd : orig.status ≠ FStatus.decl)
    (hcache : cacheLookup st origFid c.fnTy = none)
    (harity : c.fnTy.params.length ≠ orig.params.length) :
    rfbStep st curFid done rest (Instr.call c) =
      ({ funcs := st.funcs ++ [strayShell orig c st.fresh], cache := st.cache,
         fresh := st.fresh + 1 },
       [Instr.call c], none) := by
  unfold rfbStep
  simp only [hop, hfind]
  rw [if_neg hnd]
  simp only [hcache]
  rw [if_pos harity]
  rfl

def c4orig : Func := sampleFn 0 "T" [Ty.intTy 32, Ty.intTy 32] Ty.voidTy FStatus.defined []

def c4cd : CallData :=
  { res := 10, retTy := Ty.voidTy, calleeOp := Value.bitcastFn 0 (Ty.ptrTy Ty.voidTy),
    fnTy := ⟨[Ty.intTy 32], Ty.voidTy⟩, args := [Value.constVal 5 (Ty.intTy 32)], cconv := 0 }

def c4main : Func := sampleFn 1 "main" [] Ty.voidTy FStatus.defined [Instr.call c4cd]

def exC4 : Module := { funcs := [c4orig, c4main], globals := [], fresh := 20 }

/-- C4, counterexample to the claim as stated: `main` carries one bitcast
call to the two-parameter `T` with a one-parameter signature.  The repair
leaves the call exactly as it was, but the module's set of functions is
observably changed: a stray empty declaration (identity 20) created by
`Function::Create` before the arity check remains in the module. -/
theorem claim_C4_counterexample :
    (removeFunctionBitcasts exC4).funcs.map Func.fid = [0, 1, 20] ∧
    (findFunc (removeFunctionBitcasts exC4).funcs 1).map Func.body =
      some [Instr.call c4cd] :=
  ⟨by rfl, by rfl⟩

def c4st : RfbSt := { funcs := [c4orig, c4main], cache := [], fresh := 20 }

theorem claim_C4_witness :
    rfbStep c4st 1 [] [] (Instr.call c4cd) =
      ({ funcs := c4st.funcs ++ [strayShell c4orig c4cd 20], cache := [], fresh := 21 },
       [Instr.call c4cd], none) :=
  claim_C4_arity_mismatch_stray c4st 1 [] [] c4cd 0 (Ty.ptrTy Ty.voidTy) c4orig
    (by rfl) (by rfl) (by decide) (by rfl) (by decide)

theorem mem_of_findFunc (l : List Func) (fid : Nat) (f : Func)
    (h : findFunc l fid = some f) : f ∈ l ∧ f.fid = fid := by
  unfold findFunc at h
  refine ⟨List.mem_of_find?_eq_some h, ?_⟩
  have := List.find?_some h
  simpa using this

theorem find?_append_none {α : Type} (l1 l2 : List α) (p : α → Bool)
    (h : l1.find? p = none) : (l1 ++ l2).find? p = l2.find? p := by
  induction l1 with
  | nil => rfl
  | cons a t ih =>
    by_cases hpa : p a = true
    · rw [List.find?_cons_of_pos _ hpa] at h
      cases h
    · rw [List.find?_cons_of_neg _ hpa] at h
      rw [List.cons_append, List.find?_cons_of_neg _ hpa]
      exact ih h

/-- The clone built by `removeFunctionBitcasts` when the arity matches:
the freshly created function, fed with the original's attributes, body
and calling convention. -/
def cloneFn (orig : Func) (c : CallData) (fresh : Nat) : Func :=
  { strayShell orig c fresh with
    attrs := orig.attrs, body := orig.body, status := FStatus.defined, cconv := orig.cconv }

/-- The rebuilt call of `rfbRedirect`, naming the clone `cfid`. -/
def rfbNewC (st : RfbSt) (c : CallData) (cfid : Nat) : CallData :=
  { res := st.fresh,
    retTy := ((findFunc st.funcs cfid).map Func.retTy).getD c.fnTy.ret,
    calleeOp := Value.funcRef cfid
      (Ty.ptrTy (((findFunc st.funcs cfid).map Func.retTy).getD c.fnTy.ret)),
    fnTy := ((findFunc st.funcs cfid).map Func.fnTy).getD c.fnTy,
    args := c.args, cconv := c.cconv }

theorem rfbRedirect_eq (st : RfbSt) (curFid : Nat) (done rest : List Instr)
    (c : CallData) (origFid cfid : Nat) :
    rfbRedirect st curFid done rest c origFid cfid =
      ({ funcs := (if fidUsed st.funcs curFid
            (done ++ [Instr.call (rfbNewC st c cfid)] ++ rest) origFid
          then st.funcs
          else st.funcs.filter (fun f => decide (f.fid ≠ origFid))),
         cache := st.cache, fresh := st.fresh + 1 },
       [Instr.call (rfbNewC st c cfid)],
       some ⟨c.res, st.fresh, ((findFunc st.funcs cfid).map Func.retTy).getD c.fnTy.ret⟩) :=
  rfl

theorem cacheLookup_found (stx : RfbSt) (origFid cfid : Nat) (ft : FnTy) (cl : Func)
    (hc : stx.cache.find? (fun p => decide (p.1 = origFid)) = some (origFid, [cfid]))
    (hf : findFunc stx.funcs cfid = some cl)
    (hty : cl.fnTy = ft) :
    cacheLookup stx origFid ft = some cfid := by
  have hp : (fun cf => match findFunc stx.funcs cf with
      | some cfF => decide (cfF.fnTy = ft)
      | none => false) cfid = true := by
    simp [hf, hty]
  unfold cacheLookup
  rw [hc]
  show List.find? _ [cfid] = some cfid
  exact List.find?_cons_of_pos [] hp

/-- C7 (amended): for arity-compatible signature repairs the pass keeps
the at-most-one-clone-per-(original, signature) invariant through its
clone cache: a call site that finds the pair cached is redirected to
exactly the recorded clone identity, with no function created and the
cache untouched; a call site that misses creates exactly one clone with
the call's signature and the original's body, records it, and every later
identical call site's lookup finds precisely that clone's identity. -/
theorem claim_C7_clone_cache (st : RfbSt) (curFid : Nat) (done rest : List Instr)
    (c : CallData) (origFid : Nat) (ty : Ty) (orig : Func)
    (hop : c.calleeOp = Value.bitcastFn origFid ty)
    (hfind : findFunc st.funcs origFid = some orig)
    (hnd : orig.status ≠ FStatus.decl) :
    (∀ cfid, cacheLookup st origFid c.fnTy = some cfid →
      (rfbStep st curFid done rest (Instr.call c)).1.cache = st.cache ∧
      (∀ f ∈ (rfbStep st curFid done rest (Instr.call c)).1.funcs, f ∈ st.funcs) ∧
      ∃ newC, (rfbStep st curFid done rest (Instr.call c)).2.1 = [Instr.call newC] ∧
        newC.calleeOp = Value.funcRef cfid (Ty.ptrTy newC.retTy) ∧
        newC.args = c.args) ∧
    (cacheLookup st origFid c.fnTy = none →
      c.fnTy.params.length = orig.params.length →
      (∀ f ∈ st.funcs, f.fid ≠ st.fresh) →
      st.cache.find? (fun p => decide (p.1 = origFid)) = none →
      (cloneFn orig c st.fresh).fnTy = c.fnTy ∧
      (cloneFn orig c st.fresh).body = orig.body ∧
      cloneFn orig c st.fresh ∈ (rfbStep st curFid done rest (Instr.call c)).1.funcs ∧
      cacheLookup (rfbStep st curFid done rest (Instr.call c)).1 origFid c.fnTy =
        some st.fresh ∧
      ∃ newC, (rfbStep st curFid done rest (Instr.call c)).2.1 = [Instr.call newC] ∧
        newC.calleeOp = Value.funcRef st.fresh (Ty.ptrTy newC.retTy) ∧
        newC.args = c.args) := by
  constructor
  · intro cfid hc
    have hsh : rfbStep st curFid done rest (Instr.call c) =
        rfbRedirect st curFid done rest c origFid cfid := by
      unfold rfbStep
      simp only [hop, hfind]
      rw [if_neg hnd]
      simp only [hc]
    refine ⟨?_, ?_, ?_⟩
    · rw [hsh, rfbRedirect_eq]
    · intro f hf
      rw [hsh, rfbRedirect_eq] at hf
      dsimp only at hf
      split at hf
      · exact hf
      · exact List.mem_of_mem_filter hf
    · exact ⟨rfbNewC st c cfid, by rw [hsh, rfbRedirect_eq], rfl, rfl⟩
  · intro hcn harity hfresh hnoorig
    have horigfresh : origFid ≠ st.fresh := by
      obtain ⟨hmem, hfid⟩ := mem_of_findFunc st.funcs origFid orig hfind
      exact hfid ▸ hfresh orig hmem
    have hfuncs2 : (st.funcs ++ [strayShell orig c st.fresh]).map
        (fun f => if f.fid = st.fresh then cloneFn orig c st.fresh else f) =
        st.funcs ++ [cloneFn orig c st.fresh] := by
      rw [List.map_append, mapIdMem st.funcs _ (fun f hf => if_neg (hfresh f hf))]
      simp [strayShell]
    have hcp : cachePush st.cache origFid st.fresh =
        st.cache ++ [(origFid, [st.fresh])] := by
      unfold cachePush
      rw [hnoorig]
    have hsh : rfbStep st curFid done rest (Instr.call c) =
        rfbRedirect { funcs := st.funcs ++ [cloneFn orig c st.fresh],
                      cache := st.cache ++ [(origFid, [st.fresh])],
                      fresh := st.fresh + 1 } curFid done rest c origFid st.fresh := by
      have h1 : rfbStep st curFid done rest (Instr.call c) =
          rfbRedirect { funcs := (st.funcs ++ [strayShell orig c st.fresh]).map
                          (fun f => if f.fid = st.fresh then cloneFn orig c st.fresh else f),
                        cache := cachePush st.cache origFid st.fresh,
                        fresh := st.fresh + 1 } curFid done rest c origFid st.fresh := by
        unfold rfbStep
        simp only [hop, hfind]
        rw [if_neg hnd]
        simp only [hcn]
        rw [if_neg (not_not_intro harity)]
        rfl
      rw [h1, hfuncs2, hcp]
    have hffresh : findFunc (st.funcs ++ [cloneFn orig c st.fresh]) st.fresh =
        some (cloneFn orig c st.fresh) := by
      unfold findFunc
      rw [find?_append_none _ _ _
            (List.find?_eq_none.mpr (fun f hf => by simp [hfresh f hf])),
          List.find?_cons_of_pos _ (by simp [cloneFn, strayShell])]
    have hffreshFil : findFunc ((st.funcs ++ [cloneFn orig c st.fresh]).filter
        (fun f => decide (f.fid ≠ origFid))) st.fresh = some (cloneFn orig c st.fresh) := by
      rw [List.filter_append]
      have hone : List.filter (fun f => decide (f.fid ≠ origFid))
          [cloneFn orig c st.fresh] = [cloneFn orig c st.fresh] := by
        simp [cloneFn, strayShell, Ne.symm horigfresh]
      rw [hone]
      unfold findFunc
      rw [find?_append_none _ _ _
            (List.find?_eq_none.mpr
              (fun f hf => by simp [hfresh f (List.mem_of_mem_filter hf)])),
          List.find?_cons_of_pos _ (by simp [cloneFn, strayShell])]
    refine ⟨rfl, rfl, ?_, ?_, ?_⟩
    · rw [hsh, rfbRedirect_eq]
      dsimp only
      split
      · exact List.mem_append_right _ (List.mem_singleton.mpr rfl)
      · refine List.mem_filter.mpr ⟨List.mem_append_right _ (List.mem_singleton.mpr rfl), ?_⟩
        simp [cloneFn, strayShell, Ne.symm horigfresh]
    · rw [hsh, rfbRedirect_eq]
      apply cacheLookup_found _ _ _ _ (cloneFn orig c st.fresh)
      · show (st.cache ++ [(origFid, [st.fresh])]).find?
            (fun p => decide (p.1 = origFid)) = some (origFid, [st.fresh])
        rw [find?_append_none _ _ _ hnoorig, List.find?_cons_of_pos _ (by simp)]
      · dsimp only
        split
        · exact hffresh
        · exact hffreshFil
      · rfl
    · exact ⟨rfbNewC { funcs := st.funcs ++ [cloneFn orig c st.fresh],
                       cache := st.cache ++ [(origFid, [st.fresh])],
                       fresh := st.fresh + 1 } c st.fresh,
             by rw [hsh, rfbRedirect_eq], rfl, rfl⟩

def c7xorig : Func := sampleFn 0 "T" [Ty.intTy 32, Ty.intTy 32] Ty.voidTy FStatus.defined []

def c7xcd1 : CallData :=
  { res := 10, retTy := Ty.voidTy, calleeOp := Value.bitcastFn 0 (Ty.ptrTy Ty.voidTy),
    fnTy := ⟨[Ty.intTy 32], Ty.voidTy⟩, args := [Value.constVal 5 (Ty.intTy 32)], cconv := 0 }

def c7xcd2 : CallData :=
  { res := 11, retTy := Ty.voidTy, calleeOp := Value.bitcastFn 0 (Ty.ptrTy Ty.voidTy),
    fnTy := ⟨[Ty.intTy 32], Ty.voidTy⟩, args := [Value.constVal 6 (Ty.intTy 32)], cconv := 0 }

def c7xmain : Func :=
  sampleFn 1 "main" [] Ty.voidTy FStatus.defined [Instr.call c7xcd1, Instr.call c7xcd2]

def exC7 : Module := { funcs := [c7xorig, c7xmain], globals := [], fresh := 20 }

/-- C7, counterexample to the claim as stated: two call sites require the
identical mismatched signature (one `i32` parameter) of the same original
two-parameter function `T`, yet after the pass TWO distinct functions
(identities 20 and 21) with that required signature and `T`'s name exist:
on the arity-mismatch path `Function::Create` runs before the arity
check, nothing is cached, and each call site leaks its own fresh
declaration — so "at most one clone exists per pair, reused by every
later call site" is false. -/
theorem claim_C7_counterexample :
    (removeFunctionBitcasts exC7).funcs.map Func.fid = [0, 1, 20, 21] ∧
    (findFunc (removeFunctionBitcasts exC7).funcs 20).map
        (fun f => (f.name, f.params, f.retTy)) =
      some ("T", [Ty.intTy 32], Ty.voidTy) ∧
    (findFunc (removeFunctionBitcasts exC7).funcs 21).map
        (fun f => (f.name, f.params, f.retTy)) =
      some ("T", [Ty.intTy 32], Ty.voidTy) :=
  ⟨by rfl, by rfl, by rfl⟩

def c7orig : Func := sampleFn 0 "T" [Ty.intTy 32] Ty.voidTy FStatus.defined [Instr.other 50 Ty.voidTy []]

def c7cd : CallData :=
  { res := 10, retTy := Ty.voidTy, calleeOp := Value.bitcastFn 0 (Ty.ptrTy Ty.voidTy),
    fnTy := ⟨[Ty.floatTy], Ty.voidTy⟩, args := [Value.constVal 5 Ty.floatTy], cconv := 0 }

def c7main : Func := sampleFn 1 "main" [] Ty.voidTy FStatus.defined [Instr.call c7cd]

def c7stMiss : RfbSt := { funcs := [c7orig, c7main], cache := [], fresh := 20 }

def c7stHit : RfbSt :=
  { funcs := [c7orig, c7main, cloneFn c7orig c7cd 20], cache := [(0, [20])], fresh := 21 }

theorem claim_C7_witness :
    ((rfbStep c7stHit 1 [] [] (Instr.call c7cd)).1.cache = [(0, [20])] ∧
     (∀ f ∈ (rfbStep c7stHit 1 [] [] (Instr.call c7cd)).1.funcs, f ∈ c7stHit.funcs) ∧
     ∃ newC, (rfbStep c7stHit 1 [] [] (Instr.call c7cd)).2.1 = [Instr.call newC] ∧
       newC.calleeOp = Value.funcRef 20 (Ty.ptrTy newC.retTy) ∧
       newC.args = c7cd.args) ∧
    ((cloneFn c7orig c7cd 20).fnTy = c7cd.fnTy ∧
     (cloneFn c7orig c7cd 20).body = c7orig.body ∧
     cloneFn c7orig c7cd 20 ∈ (rfbStep c7stMiss 1 [] [] (Instr.call c7cd)).1.funcs ∧
     cacheLookup (rfbStep c7stMiss 1 [] [] (Instr.call c7cd)).1 0 c7cd.fnTy = some 20 ∧
     ∃ newC, (rfbStep c7stMiss 1 [] [] (Instr.call c7cd)).2.1 = [Instr.call newC] ∧
       newC.calleeOp = Value.funcRef 20 (Ty.ptrTy newC.retTy) ∧
       newC.args = c7cd.args) :=
  ⟨(claim_C7_clone_cache c7stHit 1 [] [] c7cd 0 (Ty.ptrTy Ty.voidTy) c7orig
      (by rfl) (by rfl) (by decide)).1 20 (by rfl),
   (claim_C7_clone_cache c7stMiss 1 [] [] c7cd 0 (Ty.ptrTy Ty.voidTy) c7orig
      (by rfl) (by rfl) (by decide)).2 (by rfl) (by decide) (by decide) (by rfl)⟩

end CMBiF
